import Mathlib

/-!
A verification development for the Strata compiler
(`src/compiler`: lexer, parser, type checker, x86-64 code generator).

The C++ sources are shallowly embedded below as executable Lean
definitions:

* `PrimitiveType`, `TypeInfo`, the AST (`Expr`, `Stmt`) follow
  `include/ast.hpp` / `src/ast.cpp`.  Source `Location` values are carried
  by every token and AST node but are used only to format diagnostics, so
  they are modelled on tokens (where the lexer computes them) and dropped
  from AST nodes.
* The lexer follows `src/lexer.cpp`; the byte position `pos_` into the
  source buffer is represented by the remaining suffix `rest` of the
  source, so `pos_ < size` corresponds to `rest ≠ []`.
* The expression parser (`Parser::parseBinary` and friends,
  `src/parser.cpp`) is embedded with an explicit fuel argument supplying
  the termination measure; fuel exhaustion is a distinguished outcome that
  never occurs on the concrete inputs considered here.
* The type checker follows `src/type_checker.cpp`.  `TypeError` exceptions
  become `Except String`; the `scopes_` / `functions_` hash maps become
  association lists with overwrite-on-insert, with the innermost scope at
  the head of the scope list (C++ `back()`).
* The code generator follows `src/codegen.cpp` for the non-`_WIN32`
  (System V) configuration.  The single `output_` stream is represented by
  having every generator function return the list of lines it appends
  together with the updated bookkeeping state; `generate` concatenates the
  deltas in emission order, one `String` per emitted line.
  Float literals are the one abstraction: `generateLiteral` reinterprets
  the parsed C++ `double` as its IEEE-754 bit pattern, which has no
  counterpart in this integer embedding, so the emitted operand for a
  float literal is rendered from the literal's lexeme by the marker
  function `floatBits`.  No property below depends on float literals.
-/

namespace Strata

/-- Primitive type tags (`ast.hpp`, `enum class PrimitiveType`). -/
inductive PrimitiveType where
  | INT
  | FLOAT
  | BOOL
  | CHAR
  | STRING
  | VOID
  | ANY
  deriving DecidableEq

/-- `ast.hpp` `struct TypeInfo`: a primitive tag plus the optional flag. -/
structure TypeInfo where
  primitive : PrimitiveType
  isOptional : Bool
  deriving DecidableEq

/-- `ast.cpp` `TypeInfo::toString` (used in type-checker diagnostics). -/
def TypeInfo.toString (t : TypeInfo) : String :=
  let base :=
    match t.primitive with
    | PrimitiveType.INT => "int"
    | PrimitiveType.FLOAT => "float"
    | PrimitiveType.BOOL => "bool"
    | PrimitiveType.CHAR => "char"
    | PrimitiveType.STRING => "string"
    | PrimitiveType.VOID => "void"
    | PrimitiveType.ANY => "any"
  if t.isOptional then base ++ "?" else base

/-- `ast.cpp` `TypeInfo::isCompatible(other)`: `self` is the actual type,
`other` the expected type. -/
def TypeInfo.isCompatible (self other : TypeInfo) : Bool :=
  if self.primitive = PrimitiveType.ANY ∨ other.primitive = PrimitiveType.ANY then
    true
  else if self.primitive = other.primitive then
    true
  else if self.primitive = PrimitiveType.INT ∧ other.primitive = PrimitiveType.FLOAT then
    true
  else if self.primitive = PrimitiveType.CHAR ∧ other.primitive = PrimitiveType.STRING then
    true
  else
    false

/-- The value carried by a `LiteralExpr`
(`std::variant<int64_t, double, bool, char, std::string>`).  A float
literal keeps its lexeme: the compiler only ever reinterprets the double's
bits when emitting it, see `floatBits`. -/
inductive LitValue where
  | intVal (v : Int)
  | floatVal (lexeme : String)
  | boolVal (v : Bool)
  | charVal (c : Char)
  | strVal (s : String)
  deriving DecidableEq

/-- `ast.hpp` `struct Param`. -/
structure Param where
  name : String
  type : TypeInfo
  deriving DecidableEq

mutual

/-- `ast.hpp` `struct Expr`: the expression variants. -/
inductive Expr where
  | literal (value : LitValue) (type : TypeInfo)
  | identifier (name : String)
  | binary (op : String) (left right : Expr)
  | unary (op : String) (operand : Expr)
  | call (callee : Expr) (arguments : List Expr)
  | member (object : Expr) (property : String)

/-- `ast.hpp` `struct Stmt`: the statement variants. -/
inductive Stmt where
  | letStmt (name : String) (type : TypeInfo) (value : Expr) (mutable_ : Bool)
  | assignStmt (target : String) (value : Expr)
  | exprStmt (expr : Expr)
  | ifStmt (condition : Expr) (thenBranch elseBranch : List Stmt)
  | whileStmt (condition : Expr) (body : List Stmt)
  | forStmt (init : Stmt) (condition : Expr) (update : Stmt) (body : List Stmt)
  | returnStmt (value : Option Expr)
  | breakStmt
  | continueStmt
  | functionStmt (name : String) (params : List Param) (returnType : TypeInfo)
      (body : List Stmt)
  | importStmt (name moduleName : String)

end

/-! ## Lexer (`include/token.hpp`, `src/lexer.cpp`)

The source buffer plus byte position `pos_` is represented by the
remaining character list `rest`; `advance` consumes the head of `rest`
and updates `line_` / `column_` exactly as `Lexer::advance` does.  The
scanning loops of `nextToken` are written as recursions over `rest`.
`tokenStart_` is set by the C++ `nextToken` but never read, so it is not
modelled. -/

/-- `token.hpp` `enum class TokenType`. -/
inductive TokenType where
  | INTEGER
  | FLOAT
  | STRING
  | CHAR
  | TRUE
  | FALSE
  | IDENTIFIER
  | LET
  | CONST
  | VAR
  | FUNC
  | RETURN
  | IF
  | ELSE
  | WHILE
  | FOR
  | BREAK
  | CONTINUE
  | IMPORT
  | FROM
  | TYPE_INT
  | TYPE_FLOAT
  | TYPE_BOOL
  | TYPE_CHAR
  | TYPE_STRING
  | TYPE_VOID
  | TYPE_ANY
  | PLUS
  | MINUS
  | STAR
  | SLASH
  | PERCENT
  | EQ
  | NE
  | LT
  | GT
  | LE
  | GE
  | AND
  | OR
  | NOT
  | TILDE
  | LPAREN
  | RPAREN
  | LBRACE
  | RBRACE
  | LBRACKET
  | RBRACKET
  | COMMA
  | COLON
  | SEMICOLON
  | DOT
  | ARROW
  | ASSIGN
  | DOUBLE_COLON
  | END_OF_FILE
  | ERROR
  deriving DecidableEq

/-- `token.hpp` `struct Location`. -/
structure Location where
  line : Nat
  column : Nat
  filename : String
  deriving DecidableEq

/-- `token.hpp` `struct Token`. -/
structure Token where
  type : TokenType
  value : String
  location : Location
  deriving DecidableEq

/-- Named characters, so that quotes, backslashes and braces never appear
as character literals in this file. -/
def nlC : Char := Char.ofNat 10

def tabC : Char := Char.ofNat 9

def crC : Char := Char.ofNat 13

def quoteC : Char := Char.ofNat 34

def backslashC : Char := Char.ofNat 92

def lbraceC : Char := Char.ofNat 123

def rbraceC : Char := Char.ofNat 125

/-- The lexer state: `source_`/`pos_` as the remaining suffix `rest`,
plus `line_`, `column_`, `tokenLine_`, `tokenColumn_`, `filename_`. -/
structure LexState where
  rest : List Char
  line : Nat
  column : Nat
  tokenLine : Nat
  tokenColumn : Nat
  filename : String

/-- `Lexer::Lexer(source, filename)`. -/
def initLexer (source : List Char) (filename : String) : LexState :=
  ⟨source, 1, 1, 1, 1, filename⟩

/-- The `line_`/`column_` update performed by `Lexer::advance` for one
consumed character. -/
def bump (l c : Nat) (ch : Char) : Nat × Nat :=
  if ch = nlC then (l + 1, 1) else (l, c + 1)

/-- `Lexer::advance` (lexer.cpp:52-61).  All C++ call sites guard with
`isAtEnd`, so the empty case is never reached there. -/
def LexState.advance (s : LexState) : Char × LexState :=
  match s.rest with
  | [] => (Char.ofNat 0, s)
  | ch :: rs =>
    (ch, { s with rest := rs, line := (bump s.line s.column ch).1,
                  column := (bump s.line s.column ch).2 })

/-- `Lexer::skipComment` (lexer.cpp:76-80): advance while not at end and
not looking at a newline.  The consumed characters are never newlines, so
each bump is `column + 1`. -/
def skipCommentAux : List Char → Nat → Nat → List Char × Nat × Nat
  | [], l, c => ([], l, c)
  | ch :: rs, l, c =>
    if ch = nlC then (ch :: rs, l, c)
    else skipCommentAux rs l (c + 1)

theorem skipCommentAux_length_le (xs : List Char) (l c : Nat) :
    (skipCommentAux xs l c).1.length ≤ xs.length := by
  induction xs generalizing l c with
  | nil => simp [skipCommentAux]
  | cons ch rs ih =>
    by_cases h : ch = nlC
    · simp [skipCommentAux, h]
    · simpa [skipCommentAux, h] using Nat.le_succ_of_le (ih l (c + 1))

/-- `Lexer::skipWhitespace` (lexer.cpp:63-74): skip blanks, and a `//`
comment through end of line, until something else is looked at. -/
def skipWhitespaceAux (rest : List Char) (l c : Nat) : List Char × Nat × Nat :=
  match rest with
  | [] => ([], l, c)
  | ch :: rs =>
    if ch = ' ' ∨ ch = tabC ∨ ch = crC ∨ ch = nlC then
      skipWhitespaceAux rs (bump l c ch).1 (bump l c ch).2
    else if ch = '/' ∧ rs.head? = some '/' then
      let r := skipCommentAux (ch :: rs) l c
      skipWhitespaceAux r.1 r.2.1 r.2.2
    else (ch :: rs, l, c)
termination_by rest.length
decreasing_by
  · simp
  · have h2 : ch ≠ nlC := by
      rintro rfl
      rcases ‹¬(nlC = ' ' ∨ nlC = tabC ∨ nlC = crC ∨ nlC = nlC)› with hcon
      exact hcon (Or.inr (Or.inr (Or.inr rfl)))
    simp only [skipCommentAux, if_neg h2]
    exact Nat.lt_succ_of_le (skipCommentAux_length_le rs l (c + 1))

theorem skipWhitespaceAux_length_le (xs : List Char) (l c : Nat) :
    (skipWhitespaceAux xs l c).1.length ≤ xs.length := by
  induction xs, l, c using skipWhitespaceAux.induct with
  | case1 l c => simp [skipWhitespaceAux]
  | case2 l c ch rs hws ih =>
    rw [skipWhitespaceAux]
    simp only [if_pos hws]
    exact le_trans ih (by simp)
  | case3 l c ch rs hws hsl r ih =>
    rw [skipWhitespaceAux]
    simp only [if_neg hws, if_pos hsl]
    refine le_trans ih ?_
    exact skipCommentAux_length_le (ch :: rs) l c
  | case4 l c ch rs hws hsl => rw [skipWhitespaceAux]; simp [if_neg hws, if_neg hsl]

/-- `Lexer::makeToken` (both overloads; the no-value one passes `""`). -/
def LexState.makeToken (s : LexState) (type : TokenType) (value : String) : Token :=
  ⟨type, value, ⟨s.tokenLine, s.tokenColumn, s.filename⟩⟩

/-- `Lexer::errorToken`. -/
def LexState.errorToken (s : LexState) (message : String) : Token :=
  ⟨TokenType.ERROR, message, ⟨s.tokenLine, s.tokenColumn, s.filename⟩⟩

/-- The escape mapping inside `Lexer::scanString` (lexer.cpp:107-114):
`\n \t \r \\ \"` are translated, any other escaped character is kept. -/
def escapeChar (e : Char) : Char :=
  if e = 'n' then nlC
  else if e = 't' then tabC
  else if e = 'r' then crC
  else if e = backslashC then backslashC
  else if e = quoteC then quoteC
  else e

/-- The scanning loop of `Lexer::scanString` (lexer.cpp:102-118), entered
after the opening quote was consumed.  Returns the accumulated value and
the rest/line/column after the loop exits (at end of input or looking at
the closing quote). -/
def scanStringAux : List Char → Nat → Nat → String → String × List Char × Nat × Nat
  | [], l, c, value => (value, [], l, c)
  | ch :: rs, l, c, value =>
    if ch = quoteC then (value, ch :: rs, l, c)
    else if ch = backslashC then
      match rs with
      | [] => (value, [], l, c + 1)
      | e :: rs2 =>
        scanStringAux rs2 (bump l (c + 1) e).1 (bump l (c + 1) e).2
          (value.push (escapeChar e))
    else scanStringAux rs (bump l c ch).1 (bump l c ch).2 (value.push ch)

theorem scanStringAux_length_le : ∀ (xs : List Char) (l c : Nat) (v : String),
    (scanStringAux xs l c v).2.1.length ≤ xs.length
  | [], l, c, v => by simp [scanStringAux]
  | [ch], l, c, v => by
    rw [scanStringAux.eq_2]
    split
    · simp
    · split
      · simp
      · exact le_trans (scanStringAux_length_le [] (bump l c ch).1 (bump l c ch).2
          (v.push ch)) (by simp)
  | ch :: e :: rs2, l, c, v => by
    rw [scanStringAux.eq_3]
    split
    · simp
    · split
      · refine le_trans (scanStringAux_length_le rs2 _ _ _) ?_
        simp
        omega
      · exact le_trans (scanStringAux_length_le (e :: rs2) (bump l c ch).1 (bump l c ch).2
          (v.push ch)) (by simp)

/-- `Lexer::scanString` (lexer.cpp:98-126). -/
def scanString (s : LexState) : Token × LexState :=
  let s1 := (s.advance).2
  let r := scanStringAux s1.rest s1.line s1.column ""
  match r.2.1 with
  | [] =>
    let s2 := { s1 with rest := [], line := r.2.2.1, column := r.2.2.2 }
    (s2.errorToken "Unterminated string", s2)
  | ch :: rs =>
    let s2 := { s1 with rest := rs, line := (bump r.2.2.1 r.2.2.2 ch).1,
                        column := (bump r.2.2.1 r.2.2.2 ch).2 }
    (s2.makeToken TokenType.STRING r.1, s2)

/-- The scanning loop of `Lexer::scanNumber` (lexer.cpp:128-141): consume
digits and at most one dot; a second dot breaks the loop. -/
def scanNumberAux : List Char → Nat → Nat → Bool → String →
    String × Bool × List Char × Nat × Nat
  | [], l, c, isFloat, value => (value, isFloat, [], l, c)
  | ch :: rs, l, c, isFloat, value =>
    if ch.isDigit ∨ ch = '.' then
      if ch = '.' ∧ isFloat = true then (value, isFloat, ch :: rs, l, c)
      else
        scanNumberAux rs (bump l c ch).1 (bump l c ch).2
          (if ch = '.' then true else isFloat) (value.push ch)
    else (value, isFloat, ch :: rs, l, c)

theorem scanNumberAux_length_le (xs : List Char) (l c : Nat) (f : Bool) (v : String) :
    (scanNumberAux xs l c f v).2.2.1.length ≤ xs.length := by
  induction xs, l, c, f, v using scanNumberAux.induct with
  | case1 l c f v => simp [scanNumberAux]
  | case2 ch rs l c f v hd hdot =>
    rw [scanNumberAux]
    simp [if_pos hd, if_pos hdot]
  | case3 ch rs l c f v hd hdot ih =>
    rw [scanNumberAux]
    simp only [if_pos hd, if_neg hdot]
    exact Nat.le_succ_of_le ih
  | case4 ch rs l c f v hd =>
    rw [scanNumberAux]
    simp [if_neg hd]

/-- `Lexer::scanNumber`. -/
def scanNumber (s : LexState) : Token × LexState :=
  let r := scanNumberAux s.rest s.line s.column false ""
  let s2 := { s with rest := r.2.2.1, line := r.2.2.2.1, column := r.2.2.2.2 }
  (s2.makeToken (if r.2.1 then TokenType.FLOAT else TokenType.INTEGER) r.1, s2)

/-- The scanning loop of `Lexer::scanIdentifier` (lexer.cpp:143-152). -/
def scanIdentifierAux : List Char → Nat → Nat → String → String × List Char × Nat × Nat
  | [], l, c, value => (value, [], l, c)
  | ch :: rs, l, c, value =>
    if ch.isAlphanum ∨ ch = '_' then
      scanIdentifierAux rs (bump l c ch).1 (bump l c ch).2 (value.push ch)
    else (value, ch :: rs, l, c)

theorem scanIdentifierAux_length_le (xs : List Char) (l c : Nat) (v : String) :
    (scanIdentifierAux xs l c v).2.1.length ≤ xs.length := by
  induction xs, l, c, v using scanIdentifierAux.induct with
  | case1 l c v => simp [scanIdentifierAux]
  | case2 ch rs l c v hid ih =>
    rw [scanIdentifierAux]
    simp only [if_pos hid]
    exact Nat.le_succ_of_le ih
  | case3 ch rs l c v hid =>
    rw [scanIdentifierAux]
    simp [if_neg hid]

/-- `Lexer::identifierType` with the keyword table (lexer.cpp:7-30). -/
def identifierType (identifier : String) : TokenType :=
  if identifier = "let" then TokenType.LET
  else if identifier = "const" then TokenType.CONST
  else if identifier = "var" then TokenType.VAR
  else if identifier = "func" then TokenType.FUNC
  else if identifier = "return" then TokenType.RETURN
  else if identifier = "if" then TokenType.IF
  else if identifier = "else" then TokenType.ELSE
  else if identifier = "while" then TokenType.WHILE
  else if identifier = "for" then TokenType.FOR
  else if identifier = "break" then TokenType.BREAK
  else if identifier = "continue" then TokenType.CONTINUE
  else if identifier = "import" then TokenType.IMPORT
  else if identifier = "from" then TokenType.FROM
  else if identifier = "true" then TokenType.TRUE
  else if identifier = "false" then TokenType.FALSE
  else if identifier = "int" then TokenType.TYPE_INT
  else if identifier = "float" then TokenType.TYPE_FLOAT
  else if identifier = "bool" then TokenType.TYPE_BOOL
  else if identifier = "char" then TokenType.TYPE_CHAR
  else if identifier = "string" then TokenType.TYPE_STRING
  else if identifier = "void" then TokenType.TYPE_VOID
  else if identifier = "any" then TokenType.TYPE_ANY
  else TokenType.IDENTIFIER

/-- `Lexer::scanIdentifier`. -/
def scanIdentifier (s : LexState) : Token × LexState :=
  let r := scanIdentifierAux s.rest s.line s.column ""
  let s2 := { s with rest := r.2.1, line := r.2.2.1, column := r.2.2.2 }
  (s2.makeToken (identifierType r.1) r.1, s2)

/-- The operator switch at the end of `Lexer::nextToken`
(lexer.cpp:190-264).  `c` is the character just consumed by `advance()`;
`s1` is the state after that `advance()`. -/
def operatorToken (c : Char) (s1 : LexState) : Token × LexState :=
  if c = '(' then (s1.makeToken TokenType.LPAREN "", s1)
  else if c = ')' then (s1.makeToken TokenType.RPAREN "", s1)
  else if c = lbraceC then (s1.makeToken TokenType.LBRACE "", s1)
  else if c = rbraceC then (s1.makeToken TokenType.RBRACE "", s1)
  else if c = '[' then (s1.makeToken TokenType.LBRACKET "", s1)
  else if c = ']' then (s1.makeToken TokenType.RBRACKET "", s1)
  else if c = ',' then (s1.makeToken TokenType.COMMA "", s1)
  else if c = ';' then (s1.makeToken TokenType.SEMICOLON "", s1)
  else if c = '.' then (s1.makeToken TokenType.DOT "", s1)
  else if c = '+' then (s1.makeToken TokenType.PLUS "", s1)
  else if c = '-' then (s1.makeToken TokenType.MINUS "", s1)
  else if c = '*' then (s1.makeToken TokenType.STAR "", s1)
  else if c = '/' then (s1.makeToken TokenType.SLASH "", s1)
  else if c = '%' then (s1.makeToken TokenType.PERCENT "", s1)
  else if c = '~' then (s1.makeToken TokenType.TILDE "", s1)
  else if c = ':' then
    if s1.rest.head? = some ':' then
      let s2 := (s1.advance).2
      (s2.makeToken TokenType.DOUBLE_COLON "", s2)
    else (s1.makeToken TokenType.COLON "", s1)
  else if c = '=' then
    if s1.rest.head? = some '=' then
      let s2 := (s1.advance).2
      (s2.makeToken TokenType.EQ "", s2)
    else if s1.rest.head? = some '>' then
      let s2 := (s1.advance).2
      (s2.makeToken TokenType.ARROW "", s2)
    else (s1.makeToken TokenType.ASSIGN "", s1)
  else if c = '!' then
    if s1.rest.head? = some '=' then
      let s2 := (s1.advance).2
      (s2.makeToken TokenType.NE "", s2)
    else (s1.makeToken TokenType.NOT "", s1)
  else if c = '<' then
    if s1.rest.head? = some '=' then
      let s2 := (s1.advance).2
      (s2.makeToken TokenType.LE "", s2)
    else (s1.makeToken TokenType.LT "", s1)
  else if c = '>' then
    if s1.rest.head? = some '=' then
      let s2 := (s1.advance).2
      (s2.makeToken TokenType.GE "", s2)
    else (s1.makeToken TokenType.GT "", s1)
  else if c = '&' then
    if s1.rest.head? = some '&' then
      let s2 := (s1.advance).2
      (s2.makeToken TokenType.AND "", s2)
    else (s1.errorToken "Unexpected character '&'", s1)
  else if c = '|' then
    if s1.rest.head? = some '|' then
      let s2 := (s1.advance).2
      (s2.makeToken TokenType.OR "", s2)
    else (s1.errorToken "Unexpected character '|'", s1)
  else
    (s1.errorToken ("Unexpected character '" ++ c.toString ++ "'"), s1)

/-- The state after `skipWhitespace()` and the `tokenLine_ = line_;
tokenColumn_ = column_;` assignments at the head of `Lexer::nextToken`. -/
def afterWhitespace (s : LexState) : LexState :=
  let w := skipWhitespaceAux s.rest s.line s.column
  { rest := w.1, line := w.2.1, column := w.2.2,
    tokenLine := w.2.1, tokenColumn := w.2.2, filename := s.filename }

/-- `Lexer::nextToken` (lexer.cpp:162-265). -/
def nextToken (s : LexState) : Token × LexState :=
  let sw := afterWhitespace s
  match sw.rest with
  | [] => (sw.makeToken TokenType.END_OF_FILE "", sw)
  | c :: _ =>
    if c = quoteC then scanString sw
    else if c.isDigit then scanNumber sw
    else if c.isAlpha ∨ c = '_' then scanIdentifier sw
    else operatorToken c (sw.advance).2

theorem afterWhitespace_rest_le (s : LexState) :
    (afterWhitespace s).rest.length ≤ s.rest.length :=
  skipWhitespaceAux_length_le s.rest s.line s.column

theorem advance2_rest_le (s : LexState) : ((s.advance).2).rest.length ≤ s.rest.length := by
  rcases h : s.rest with _ | ⟨ch, rs⟩ <;> simp [LexState.advance, h]

theorem advance2_rest_eq (s : LexState) (c : Char) (rs : List Char) (h : s.rest = c :: rs) :
    ((s.advance).2).rest = rs := by
  simp [LexState.advance, h]

set_option maxHeartbeats 1000000 in
theorem operatorToken_rest_le (c : Char) (s1 : LexState) :
    ((operatorToken c s1).2).rest.length ≤ s1.rest.length := by
  have hadv := advance2_rest_le s1
  unfold operatorToken
  by_cases h1 : c = '('
  · rw [if_pos h1]
  rw [if_neg h1]
  by_cases h2 : c = ')'
  · rw [if_pos h2]
  rw [if_neg h2]
  by_cases h3 : c = lbraceC
  · rw [if_pos h3]
  rw [if_neg h3]
  by_cases h4 : c = rbraceC
  · rw [if_pos h4]
  rw [if_neg h4]
  by_cases h5 : c = '['
  · rw [if_pos h5]
  rw [if_neg h5]
  by_cases h6 : c = ']'
  · rw [if_pos h6]
  rw [if_neg h6]
  by_cases h7 : c = ','
  · rw [if_pos h7]
  rw [if_neg h7]
  by_cases h8 : c = ';'
  · rw [if_pos h8]
  rw [if_neg h8]
  by_cases h9 : c = '.'
  · rw [if_pos h9]
  rw [if_neg h9]
  by_cases h10 : c = '+'
  · rw [if_pos h10]
  rw [if_neg h10]
  by_cases h11 : c = '-'
  · rw [if_pos h11]
  rw [if_neg h11]
  by_cases h12 : c = '*'
  · rw [if_pos h12]
  rw [if_neg h12]
  by_cases h13 : c = '/'
  · rw [if_pos h13]
  rw [if_neg h13]
  by_cases h14 : c = '%'
  · rw [if_pos h14]
  rw [if_neg h14]
  by_cases h15 : c = '~'
  · rw [if_pos h15]
  rw [if_neg h15]
  by_cases h16 : c = ':'
  · rw [if_pos h16]
    split <;> first | exact le_rfl | exact hadv
  rw [if_neg h16]
  by_cases h17 : c = '='
  · rw [if_pos h17]
    repeat' split
    all_goals first | exact le_rfl | exact hadv
  rw [if_neg h17]
  by_cases h18 : c = '!'
  · rw [if_pos h18]
    split <;> first | exact le_rfl | exact hadv
  rw [if_neg h18]
  by_cases h19 : c = '<'
  · rw [if_pos h19]
    split <;> first | exact le_rfl | exact hadv
  rw [if_neg h19]
  by_cases h20 : c = '>'
  · rw [if_pos h20]
    split <;> first | exact le_rfl | exact hadv
  rw [if_neg h20]
  by_cases h21 : c = '&'
  · rw [if_pos h21]
    split <;> first | exact le_rfl | exact hadv
  rw [if_neg h21]
  by_cases h22 : c = '|'
  · rw [if_pos h22]
    split <;> first | exact le_rfl | exact hadv
  rw [if_neg h22]

theorem scanString_rest_le (s : LexState) (c : Char) (rs : List Char) (h : s.rest = c :: rs) :
    ((scanString s).2).rest.length ≤ rs.length := by
  have hadv := advance2_rest_eq s c rs h
  simp only [scanString, hadv]
  have hle := scanStringAux_length_le rs ((s.advance).2).line ((s.advance).2).column ""
  rcases hone : (scanStringAux rs ((s.advance).2).line ((s.advance).2).column "").2.1 with
    _ | ⟨ch, rs'⟩
  · rw [hone] at hle
    simp [hone]
  · rw [hone] at hle
    simp only [List.length_cons] at hle
    simp [hone]
    omega

theorem scanNumber_rest_le (s : LexState) (c : Char) (rs : List Char) (h : s.rest = c :: rs)
    (hd : c.isDigit = true) : ((scanNumber s).2).rest.length ≤ rs.length := by
  unfold scanNumber
  rw [h, scanNumberAux]
  simp only [hd, true_or, if_true]
  rw [if_neg (by simp)]
  exact scanNumberAux_length_le rs _ _ _ _

theorem scanIdentifier_rest_le (s : LexState) (c : Char) (rs : List Char)
    (h : s.rest = c :: rs) (ha : c.isAlpha = true ∨ c = '_') :
    ((scanIdentifier s).2).rest.length ≤ rs.length := by
  unfold scanIdentifier
  rw [h, scanIdentifierAux]
  have hcond : (c.isAlphanum = true ∨ c = '_') := by
    rcases ha with ha | ha
    · exact Or.inl (by simp [Char.isAlphanum, ha])
    · exact Or.inr ha
  simp only [if_pos hcond]
  exact scanIdentifierAux_length_le rs _ _ _

/-- `nextToken` consumes at least one character unless it returns the
end-of-file token. -/
theorem nextToken_progress (s : LexState)
    (h : (nextToken s).1.type ≠ TokenType.END_OF_FILE) :
    ((nextToken s).2).rest.length < s.rest.length := by
  have hws := afterWhitespace_rest_le s
  unfold nextToken at h ⊢
  rcases hr : (afterWhitespace s).rest with _ | ⟨c, rs⟩
  · exfalso
    apply h
    simp only [hr]
    rfl
  · simp only [hr]
    have hlt : rs.length < s.rest.length := by
      rw [hr] at hws
      simp at hws
      omega
    split_ifs with h1 h2 h3
    · exact lt_of_le_of_lt (scanString_rest_le _ c rs hr) hlt
    · exact lt_of_le_of_lt (scanNumber_rest_le _ c rs hr h2) hlt
    · exact lt_of_le_of_lt (scanIdentifier_rest_le _ c rs hr h3) hlt
    · refine lt_of_le_of_lt ?_ hlt
      refine le_trans (operatorToken_rest_le c _) ?_
      rw [advance2_rest_eq _ c rs hr]

/-- `Lexer::tokenize` (lexer.cpp:267-275): the do-while loop pushing
tokens until the one just pushed is `END_OF_FILE` or `ERROR`. -/
def tokenize (s : LexState) : List Token :=
  let r := nextToken s
  if h : r.1.type = TokenType.END_OF_FILE ∨ r.1.type = TokenType.ERROR then [r.1]
  else r.1 :: tokenize r.2
termination_by s.rest.length
decreasing_by
  exact nextToken_progress s (fun heof => h (Or.inl heof))

/-- The shape of every `tokenize` result: some tokens that are neither
`END_OF_FILE` nor `ERROR`, then exactly one final token that is one of
the two. -/
theorem tokenize_shape (s : LexState) : ∃ ts0 tl, tokenize s = ts0 ++ [tl] ∧
    (tl.type = TokenType.END_OF_FILE ∨ tl.type = TokenType.ERROR) ∧
    ∀ t ∈ ts0, t.type ≠ TokenType.END_OF_FILE ∧ t.type ≠ TokenType.ERROR := by
  generalize hn : s.rest.length = n
  induction n using Nat.strong_induction_on generalizing s with
  | _ n ih =>
    rw [tokenize]
    by_cases h : (nextToken s).1.type = TokenType.END_OF_FILE ∨
        (nextToken s).1.type = TokenType.ERROR
    · exact ⟨[], (nextToken s).1, by simp [h], h, by simp⟩
    · have hlt : ((nextToken s).2).rest.length < n := by
        rw [← hn]
        exact nextToken_progress s (fun heof => h (Or.inl heof))
      obtain ⟨ts0, tl, heq, htl, hts0⟩ := ih _ hlt (nextToken s).2 rfl
      refine ⟨(nextToken s).1 :: ts0, tl, ?_, htl, ?_⟩
      · simp [h, heq]
      · intro t ht
        rcases List.mem_cons.mp ht with rfl | ht
        · exact ⟨fun he => h (Or.inl he), fun he => h (Or.inr he)⟩
        · exact hts0 t ht

/-- C7.  For every finite input byte string, `tokenize` terminates (it is
a total Lean function) and returns a finite non-empty token list whose
last element is the only `END_OF_FILE` or `ERROR` token in the list; in
particular no `ERROR` token is ever followed by further tokens. -/
theorem C7_tokenize_totality (source : List Char) (filename : String) :
    tokenize (initLexer source filename) ≠ [] ∧
    ∃ ts0 tl, tokenize (initLexer source filename) = ts0 ++ [tl] ∧
      (tl.type = TokenType.END_OF_FILE ∨ tl.type = TokenType.ERROR) ∧
      ∀ t ∈ ts0, t.type ≠ TokenType.END_OF_FILE ∧ t.type ≠ TokenType.ERROR := by
  obtain ⟨ts0, tl, heq, htl, hts0⟩ := tokenize_shape (initLexer source filename)
  refine ⟨?_, ts0, tl, heq, htl, hts0⟩
  rw [heq]
  simp

/-! ## Parser (`src/parser.cpp`), expression part

Only the expression grammar is needed by the claims below.  The token
cursor `current_` into the token vector becomes `ParserState.current`;
out-of-range reads (undefined behaviour in C++, unreachable on
EOF-terminated token lists) return an `END_OF_FILE` token.  `ParseError`
is `Except.error` carrying the message; locations are dropped.  The
recursion is driven by an explicit fuel argument; `fuelMsg` never occurs
for sufficient fuel and is distinct from every parser message. -/

structure ParserState where
  tokens : List Token
  current : Nat

/-- The default token for out-of-range accesses (never reached on
EOF-terminated inputs). -/
def eofToken : Token := ⟨TokenType.END_OF_FILE, "", ⟨0, 0, ""⟩⟩

/-- `Parser::peek`. -/
def ParserState.peek (p : ParserState) : Token := p.tokens.getD p.current eofToken

/-- `Parser::previous`. -/
def ParserState.previous (p : ParserState) : Token :=
  p.tokens.getD (p.current - 1) eofToken

/-- `Parser::isAtEnd`. -/
def ParserState.isAtEnd (p : ParserState) : Bool :=
  p.peek.type = TokenType.END_OF_FILE

/-- `Parser::advance`: step the cursor unless at end, return `previous()`. -/
def ParserState.advance (p : ParserState) : Token × ParserState :=
  let p' := if p.isAtEnd then p else { p with current := p.current + 1 }
  (p'.previous, p')

/-- `Parser::check`. -/
def ParserState.check (p : ParserState) (t : TokenType) : Bool :=
  if p.isAtEnd then false else p.peek.type = t

/-- `Parser::match`. -/
def ParserState.matchToken (p : ParserState) (t : TokenType) : Bool × ParserState :=
  if p.check t then (true, (p.advance).2) else (false, p)

/-- `Parser::consume`. -/
def ParserState.consume (p : ParserState) (t : TokenType) (message : String) :
    Except String (Token × ParserState) :=
  if p.check t then Except.ok p.advance else Except.error message

/-- The `precedences` table (parser.cpp:6-13) together with
`Parser::getPrecedence` (default 0). -/
def getPrecedence (op : String) : Nat :=
  if op = "||" then 1
  else if op = "&&" then 2
  else if op = "==" ∨ op = "!=" then 3
  else if op = "<" ∨ op = ">" ∨ op = "<=" ∨ op = ">=" then 4
  else if op = "+" ∨ op = "-" then 5
  else if op = "*" ∨ op = "/" ∨ op = "%" then 6
  else 0

/-- The operator-token switch inside `Parser::parseBinary`
(parser.cpp:341-356): `none` plays the role of the `default: return left`
branch. -/
def binaryOpString (t : TokenType) : Option String :=
  match t with
  | TokenType.PLUS => some "+"
  | TokenType.MINUS => some "-"
  | TokenType.STAR => some "*"
  | TokenType.SLASH => some "/"
  | TokenType.PERCENT => some "%"
  | TokenType.EQ => some "=="
  | TokenType.NE => some "!="
  | TokenType.LT => some "<"
  | TokenType.GT => some ">"
  | TokenType.LE => some "<="
  | TokenType.GE => some ">="
  | TokenType.AND => some "&&"
  | TokenType.OR => some "||"
  | _ => none

/-- `Token::intValue` (`std::stoll`) on the digit strings produced by
`scanNumber` for `INTEGER` tokens. -/
def strToInt (s : String) : Int :=
  ((s.toList.foldl (fun a c => a * 10 + (c.toNat - 48)) 0 : Nat) : Int)

/-- Fuel-exhaustion sentinel, distinct from every parser error message. -/
def fuelMsg : String := "PARSER-FUEL-EXHAUSTED"

mutual

/-- `Parser::parseBinary(minPrecedence)` (parser.cpp:334-367): parse a
unary expression, then fold in operators via `parseBinaryLoop`. -/
def parseBinary (fuel : Nat) (minPrecedence : Nat) (p : ParserState) :
    Except String (Expr × ParserState) :=
  match fuel with
  | 0 => Except.error fuelMsg
  | fuel + 1 =>
    match parseUnary fuel p with
    | Except.error e => Except.error e
    | Except.ok (left, p) => parseBinaryLoop fuel minPrecedence left p

/-- The `while (true)` loop inside `Parser::parseBinary`. -/
def parseBinaryLoop (fuel : Nat) (minPrecedence : Nat) (left : Expr) (p : ParserState) :
    Except String (Expr × ParserState) :=
  match fuel with
  | 0 => Except.error fuelMsg
  | fuel + 1 =>
    match binaryOpString (p.peek).type with
    | none => Except.ok (left, p)
    | some opStr =>
      let prec := getPrecedence opStr
      if prec ≤ minPrecedence then Except.ok (left, p)
      else
        let p1 := (p.advance).2
        match parseBinary fuel prec p1 with
        | Except.error e => Except.error e
        | Except.ok (right, p2) =>
          parseBinaryLoop fuel minPrecedence (Expr.binary opStr left right) p2

/-- `Parser::parseUnary` (parser.cpp:369-386). -/
def parseUnary (fuel : Nat) (p : ParserState) : Except String (Expr × ParserState) :=
  match fuel with
  | 0 => Except.error fuelMsg
  | fuel + 1 =>
    let mNot := p.matchToken TokenType.NOT
    if mNot.1 then
      match parseUnary fuel mNot.2 with
      | Except.error e => Except.error e
      | Except.ok (operand, p2) => Except.ok (Expr.unary "!" operand, p2)
    else
      let mMinus := p.matchToken TokenType.MINUS
      if mMinus.1 then
        match parseUnary fuel mMinus.2 with
        | Except.error e => Except.error e
        | Except.ok (operand, p2) => Except.ok (Expr.unary "-" operand, p2)
      else
        let mTilde := p.matchToken TokenType.TILDE
        if mTilde.1 then
          match parseUnary fuel mTilde.2 with
          | Except.error e => Except.error e
          | Except.ok (operand, p2) => Except.ok (Expr.unary "~" operand, p2)
        else parsePrimary fuel p

/-- `Parser::parsePrimary` (parser.cpp:388-441). -/
def parsePrimary (fuel : Nat) (p : ParserState) : Except String (Expr × ParserState) :=
  match fuel with
  | 0 => Except.error fuelMsg
  | fuel + 1 =>
    let mInt := p.matchToken TokenType.INTEGER
    if mInt.1 then
      Except.ok (Expr.literal (LitValue.intVal (strToInt (mInt.2.previous).value))
        ⟨PrimitiveType.INT, false⟩, mInt.2)
    else
      let mFloat := p.matchToken TokenType.FLOAT
      if mFloat.1 then
        Except.ok (Expr.literal (LitValue.floatVal (mFloat.2.previous).value)
          ⟨PrimitiveType.FLOAT, false⟩, mFloat.2)
      else
        let mStr := p.matchToken TokenType.STRING
        if mStr.1 then
          Except.ok (Expr.literal (LitValue.strVal (mStr.2.previous).value)
            ⟨PrimitiveType.STRING, false⟩, mStr.2)
        else
          let mTrue := p.matchToken TokenType.TRUE
          if mTrue.1 then
            Except.ok (Expr.literal (LitValue.boolVal true) ⟨PrimitiveType.BOOL, false⟩,
              mTrue.2)
          else
            let mFalse := p.matchToken TokenType.FALSE
            if mFalse.1 then
              Except.ok (Expr.literal (LitValue.boolVal false) ⟨PrimitiveType.BOOL, false⟩,
                mFalse.2)
            else
              let mIdent := p.matchToken TokenType.IDENTIFIER
              if mIdent.1 then
                parsePostfix fuel (Expr.identifier (mIdent.2.previous).value) mIdent.2
              else
                let mLparen := p.matchToken TokenType.LPAREN
                if mLparen.1 then
                  match parseBinary fuel 0 mLparen.2 with
                  | Except.error e => Except.error e
                  | Except.ok (expr, p2) =>
                    match p2.consume TokenType.RPAREN "Expected ')' after expression" with
                    | Except.error e => Except.error e
                    | Except.ok (_, p3) => Except.ok (expr, p3)
                else Except.error "Expected expression"

/-- The member-access / call loop inside `Parser::parsePrimary`
(parser.cpp:413-428). -/
def parsePostfix (fuel : Nat) (expr : Expr) (p : ParserState) :
    Except String (Expr × ParserState) :=
  match fuel with
  | 0 => Except.error fuelMsg
  | fuel + 1 =>
    let mDot := p.matchToken TokenType.DOT
    let mAfter :=
      if mDot.1 then (true, mDot.2)
      else
        let mCol := p.matchToken TokenType.DOUBLE_COLON
        if mCol.1 then (true, mCol.2) else (false, p)
    if mAfter.1 then
      match mAfter.2.consume TokenType.IDENTIFIER "Expected property name" with
      | Except.error e => Except.error e
      | Except.ok (propTok, p2) =>
        if p2.check TokenType.LPAREN then
          match parseCall fuel (Expr.member expr propTok.value) p2 with
          | Except.error e => Except.error e
          | Except.ok (expr2, p3) => parsePostfix fuel expr2 p3
        else parsePostfix fuel (Expr.member expr propTok.value) p2
    else if p.check TokenType.LPAREN then
      match parseCall fuel expr p with
      | Except.error e => Except.error e
      | Except.ok (expr2, p2) => parsePostfix fuel expr2 p2
    else Except.ok (expr, p)

/-- `Parser::parseCall` (parser.cpp:443-456). -/
def parseCall (fuel : Nat) (callee : Expr) (p : ParserState) :
    Except String (Expr × ParserState) :=
  match fuel with
  | 0 => Except.error fuelMsg
  | fuel + 1 =>
    match p.consume TokenType.LPAREN "Expected '(' for function call" with
    | Except.error e => Except.error e
    | Except.ok (_, p1) =>
      if p1.check TokenType.RPAREN then
        match p1.consume TokenType.RPAREN "Expected ')' after arguments" with
        | Except.error e => Except.error e
        | Except.ok (_, p2) => Except.ok (Expr.call callee [], p2)
      else
        match parseArgsLoop fuel [] p1 with
        | Except.error e => Except.error e
        | Except.ok (args, p2) =>
          match p2.consume TokenType.RPAREN "Expected ')' after arguments" with
          | Except.error e => Except.error e
          | Except.ok (_, p3) => Except.ok (Expr.call callee args, p3)

/-- The argument `do`-`while` loop inside `Parser::parseCall`. -/
def parseArgsLoop (fuel : Nat) (acc : List Expr) (p : ParserState) :
    Except String (List Expr × ParserState) :=
  match fuel with
  | 0 => Except.error fuelMsg
  | fuel + 1 =>
    match parseBinary fuel 0 p with
    | Except.error e => Except.error e
    | Except.ok (arg, p1) =>
      let mComma := p1.matchToken TokenType.COMMA
      if mComma.1 then parseArgsLoop fuel (acc ++ [arg]) mComma.2
      else Except.ok (acc ++ [arg], p1)

end

/-- `Parser::parseExpression`. -/
def parseExpression (fuel : Nat) (p : ParserState) : Except String (Expr × ParserState) :=
  parseBinary fuel 0 p

/-! ## Type checker (`include/type_checker.hpp`, `src/type_checker.cpp`)

`TypeError` exceptions become `Except.error` carrying the message text
(locations are used only for formatting diagnostics).  The
`unordered_map`s become association lists with overwrite-on-insert
(`assocSet`); the scope stack keeps the innermost scope (C++ `back()`)
at the head. -/

/-- `type_checker.hpp` `struct VariableInfo`. -/
structure VariableInfo where
  type : TypeInfo
  mutable_ : Bool
  deriving DecidableEq

/-- `type_checker.hpp` `struct FunctionInfo`. -/
structure FunctionInfo where
  paramTypes : List TypeInfo
  returnType : TypeInfo

/-- `unordered_map::find`, first match on an association list. -/
def assocGet {α : Type} : List (String × α) → String → Option α
  | [], _ => none
  | (k', v) :: rest, k => if k' = k then some v else assocGet rest k

/-- `unordered_map::operator[]=`: overwrite the binding if present,
otherwise add one. -/
def assocSet {α : Type} : List (String × α) → String → α → List (String × α)
  | [], k, v => [(k, v)]
  | (k', v') :: rest, k, v =>
    if k' = k then (k, v) :: rest else (k', v') :: assocSet rest k v

/-- The `TypeChecker` fields: `scopes_`, `functions_`,
`currentReturnType_`, `inFunction_`. -/
structure TCState where
  scopes : List (List (String × VariableInfo))
  functions : List (String × FunctionInfo)
  currentReturnType : TypeInfo
  inFunction : Bool

/-- `TypeChecker::TypeChecker()`: one initial scope, VOID return. -/
def tcInit : TCState := ⟨[[]], [], ⟨PrimitiveType.VOID, false⟩, false⟩

/-- `TypeChecker::enterScope`. -/
def TCState.enterScope (st : TCState) : TCState :=
  { st with scopes := [] :: st.scopes }

/-- `TypeChecker::exitScope` (`pop_back`; the C++ scope stack is never
empty when it is called). -/
def TCState.exitScope (st : TCState) : TCState :=
  { st with scopes := st.scopes.tail }

/-- `TypeChecker::declareVariable`. -/
def TCState.declareVariable (st : TCState) (name : String) (type : TypeInfo)
    (mutable_ : Bool) : TCState :=
  match st.scopes with
  | [] => st
  | inner :: outer =>
    { st with scopes := assocSet inner name ⟨type, mutable_⟩ :: outer }

/-- The innermost-to-outermost search of `TypeChecker::lookupVariable`. -/
def lookupScopes : List (List (String × VariableInfo)) → String → Option VariableInfo
  | [], _ => none
  | sc :: rest, name =>
    match assocGet sc name with
    | some v => some v
    | none => lookupScopes rest name

/-- `TypeChecker::lookupVariable`. -/
def TCState.lookupVariable (st : TCState) (name : String) : Option VariableInfo :=
  lookupScopes st.scopes name

/-- `TypeChecker::declareFunction`. -/
def TCState.declareFunction (st : TCState) (name : String) (params : List TypeInfo)
    (returnType : TypeInfo) : TCState :=
  { st with functions := assocSet st.functions name ⟨params, returnType⟩ }

/-- `TypeChecker::lookupFunction`. -/
def TCState.lookupFunction (st : TCState) (name : String) : Option FunctionInfo :=
  assocGet st.functions name

/-- The parameter-declaration loop of `TypeChecker::checkFunctionStmt`
(params enter the new scope as immutable). -/
def declareParams : TCState → List Param → TCState
  | st, [] => st
  | st, p :: ps => declareParams (st.declareVariable p.name p.type false) ps

mutual

/-- `TypeChecker::checkExpression` with `checkBinaryExpr`,
`checkUnaryExpr` and `checkCallExpr` inlined at their single call sites
(type_checker.cpp:165-268). -/
def checkExpression (st : TCState) : Expr → Except String TypeInfo
  | Expr.literal _ type => Except.ok type
  | Expr.identifier name =>
    match st.lookupVariable name with
    | some v => Except.ok v.type
    | none => Except.ok ⟨PrimitiveType.ANY, false⟩
  | Expr.binary op left right =>
    match checkExpression st left with
    | Except.error e => Except.error e
    | Except.ok leftType =>
      match checkExpression st right with
      | Except.error e => Except.error e
      | Except.ok rightType =>
        if op = "==" ∨ op = "!=" ∨ op = "<" ∨ op = ">" ∨ op = "<=" ∨ op = ">=" then
          Except.ok ⟨PrimitiveType.BOOL, false⟩
        else if op = "&&" ∨ op = "||" then
          if leftType.primitive ≠ PrimitiveType.BOOL ∧
              leftType.primitive ≠ PrimitiveType.ANY then
            Except.error "Logical operator requires boolean operands"
          else Except.ok ⟨PrimitiveType.BOOL, false⟩
        else if op = "+" ∨ op = "-" ∨ op = "*" ∨ op = "/" ∨ op = "%" then
          if leftType.primitive = PrimitiveType.FLOAT ∨
              rightType.primitive = PrimitiveType.FLOAT then
            Except.ok ⟨PrimitiveType.FLOAT, false⟩
          else if leftType.primitive = PrimitiveType.STRING ∧ op = "+" then
            Except.ok ⟨PrimitiveType.STRING, false⟩
          else Except.ok ⟨PrimitiveType.INT, false⟩
        else Except.ok leftType
  | Expr.unary op operand =>
    match checkExpression st operand with
    | Except.error e => Except.error e
    | Except.ok operandType =>
      if op = "!" then
        if operandType.primitive ≠ PrimitiveType.BOOL ∧
            operandType.primitive ≠ PrimitiveType.ANY then
          Except.error "Logical not requires boolean operand"
        else Except.ok ⟨PrimitiveType.BOOL, false⟩
      else if op = "-" ∨ op = "+" then Except.ok operandType
      else if op = "~" then Except.ok ⟨PrimitiveType.INT, false⟩
      else Except.ok operandType
  | Expr.call callee arguments =>
    match callee with
    | Expr.identifier name =>
      match st.lookupFunction name with
      | some func =>
        if arguments.length ≠ func.paramTypes.length then
          Except.error "Wrong number of arguments"
        else
          match checkArgs st arguments func.paramTypes with
          | Except.error e => Except.error e
          | Except.ok _ => Except.ok func.returnType
      | none => Except.ok ⟨PrimitiveType.ANY, false⟩
    | _ => Except.ok ⟨PrimitiveType.ANY, false⟩
  | Expr.member _ _ => Except.ok ⟨PrimitiveType.ANY, false⟩

/-- The argument loop of `TypeChecker::checkCallExpr`
(type_checker.cpp:256-261); the lists have equal length at the call
site, so the second base case is unreachable there. -/
def checkArgs (st : TCState) : List Expr → List TypeInfo → Except String Unit
  | [], _ => Except.ok ()
  | _ :: _, [] => Except.ok ()
  | arg :: args, pt :: pts =>
    match checkExpression st arg with
    | Except.error e => Except.error e
    | Except.ok argType =>
      if argType.isCompatible pt then checkArgs st args pts
      else Except.error "Argument type mismatch"

end

mutual

/-- `TypeChecker::checkStatement` with the per-statement checkers
inlined (type_checker.cpp:17-163).  `BreakStmt`, `ContinueStmt` and
`ImportStmt` have no branch in the C++ dispatch and fall through as
no-ops. -/
def checkStatement (st : TCState) : Stmt → Except String TCState
  | Stmt.letStmt name type value mutable_ =>
    match checkExpression st value with
    | Except.error e => Except.error e
    | Except.ok valueType =>
      if valueType.isCompatible type then
        Except.ok (st.declareVariable name type mutable_)
      else
        Except.error ("Type mismatch: expected " ++ type.toString ++ ", got " ++
          valueType.toString)
  | Stmt.assignStmt target value =>
    match st.lookupVariable target with
    | none => Except.error ("Undefined variable: " ++ target)
    | some var =>
      if var.mutable_ = false then
        Except.error ("Cannot assign to immutable variable: " ++ target)
      else
        match checkExpression st value with
        | Except.error e => Except.error e
        | Except.ok valueType =>
          if valueType.isCompatible var.type then Except.ok st
          else Except.error "Type mismatch in assignment"
  | Stmt.exprStmt e =>
    match checkExpression st e with
    | Except.error er => Except.error er
    | Except.ok _ => Except.ok st
  | Stmt.ifStmt condition thenBranch elseBranch =>
    match checkExpression st condition with
    | Except.error e => Except.error e
    | Except.ok condType =>
      if condType.primitive ≠ PrimitiveType.BOOL ∧
          condType.primitive ≠ PrimitiveType.ANY then
        Except.error "Condition must be boolean"
      else
        match checkStmtList st.enterScope thenBranch with
        | Except.error e => Except.error e
        | Except.ok st1 =>
          if elseBranch.isEmpty then Except.ok st1.exitScope
          else
            match checkStmtList st1.exitScope.enterScope elseBranch with
            | Except.error e => Except.error e
            | Except.ok st2 => Except.ok st2.exitScope
  | Stmt.whileStmt condition body =>
    match checkExpression st condition with
    | Except.error e => Except.error e
    | Except.ok condType =>
      if condType.primitive ≠ PrimitiveType.BOOL ∧
          condType.primitive ≠ PrimitiveType.ANY then
        Except.error "Condition must be boolean"
      else
        match checkStmtList st.enterScope body with
        | Except.error e => Except.error e
        | Except.ok st1 => Except.ok st1.exitScope
  | Stmt.forStmt init condition update body =>
    match checkStatement st.enterScope init with
    | Except.error e => Except.error e
    | Except.ok st1 =>
      match checkExpression st1 condition with
      | Except.error e => Except.error e
      | Except.ok condType =>
        if condType.primitive ≠ PrimitiveType.BOOL ∧
            condType.primitive ≠ PrimitiveType.ANY then
          Except.error "Condition must be boolean"
        else
          match checkStatement st1 update with
          | Except.error e => Except.error e
          | Except.ok st2 =>
            match checkStmtList st2 body with
            | Except.error e => Except.error e
            | Except.ok st3 => Except.ok st3.exitScope
  | Stmt.functionStmt name params returnType body =>
    let paramTypes := params.map Param.type
    let st1 := st.declareFunction name paramTypes returnType
    let st2 := { st1.enterScope with currentReturnType := returnType, inFunction := true }
    let st3 := declareParams st2 params
    match checkStmtList st3 body with
    | Except.error e => Except.error e
    | Except.ok st4 =>
      Except.ok { st4.exitScope with currentReturnType := st.currentReturnType, inFunction := st.inFunction }
  | Stmt.returnStmt value =>
    if st.inFunction = false then Except.error "Return statement outside function"
    else
      match value with
      | some v =>
        match checkExpression st v with
        | Except.error e => Except.error e
        | Except.ok valueType =>
          if valueType.isCompatible st.currentReturnType then Except.ok st
          else
            Except.error ("Return type mismatch: expected " ++
              st.currentReturnType.toString ++ ", got " ++ valueType.toString)
      | none =>
        if st.currentReturnType.primitive ≠ PrimitiveType.VOID then
          Except.error "Function must return a value"
        else Except.ok st
  | Stmt.breakStmt => Except.ok st
  | Stmt.continueStmt => Except.ok st
  | Stmt.importStmt _ _ => Except.ok st

/-- The statement loops of `TypeChecker::check` and of the per-block
checkers, threading the checker state. -/
def checkStmtList (st : TCState) : List Stmt → Except String TCState
  | [] => Except.ok st
  | s :: rest =>
    match checkStatement st s with
    | Except.error e => Except.error e
    | Except.ok st1 => checkStmtList st1 rest

end

/-- `TypeChecker::check` on a whole program, from the freshly constructed
checker state. -/
def typeCheck (statements : List Stmt) : Except String TCState :=
  checkStmtList tcInit statements

/-! ## Code generator (`include/codegen.hpp`, `src/codegen.cpp`)

The non-`_WIN32` (System V) configuration is embedded.  The single
`output_` stream becomes an explicit list of emitted lines: every
generator function returns the delta of lines it appends (in emission
order, one string per line, without the trailing newline) next to the
updated bookkeeping state, and `generate` concatenates the deltas exactly
in the order the C++ code writes them.  `emit(x)` corresponds to the line
`"    " ++ x`, `emitLabel(l)` to `l ++ ":"`, `emitComment(c)` to
`"    ; " ++ c`.  The unused `dataSection_` stream, the unused
`functions_` table and the unused `freeStack` helper are not modelled. -/

/-- `codegen.hpp` `struct Variable`. -/
structure Variable where
  stackOffset : Int
  type : TypeInfo
  mutable_ : Bool

/-- The bookkeeping fields of `CodeGenerator` (everything except the
output streams). -/
structure CGState where
  stackOffset : Int
  labelCounter : Nat
  stringCounter : Nat
  scopes : List (List (String × Variable))
  stringLiterals : List (String × String)
  breakLabel : Int
  continueLabel : Int
  inFunction : Bool
  currentFunction : String

/-- `CodeGenerator::CodeGenerator()` (codegen.cpp:7-13). -/
def cgInit : CGState := ⟨0, 0, 0, [], [], -1, -1, false, ""⟩

/-- `CodeGenerator::emit`. -/
def emitL (line : String) : String := "    " ++ line

/-- `CodeGenerator::emitLabel`. -/
def labelL (label : String) : String := label ++ ":"

/-- `CodeGenerator::emitComment`. -/
def commentL (comment : String) : String := "    ; " ++ comment

/-- `CodeGenerator::enterScope`. -/
def enterScopeCG (s : CGState) : CGState := { s with scopes := [] :: s.scopes }

/-- `CodeGenerator::exitScope` (`pop_back`). -/
def exitScopeCG (s : CGState) : CGState := { s with scopes := s.scopes.tail }

/-- `CodeGenerator::declareLocal` with `allocateStack(8)` inlined
(codegen.cpp:43-58): bump the frame offset by 8 and bind the name in the
innermost scope (if any). -/
def CGState.declareLocal (s : CGState) (name : String) (type : TypeInfo)
    (mutable_ : Bool) : Int × CGState :=
  let offset := s.stackOffset + 8
  let s1 := { s with stackOffset := offset }
  match s1.scopes with
  | [] => (offset, s1)
  | inner :: outer =>
    (offset, { s1 with scopes := assocSet inner name ⟨offset, type, mutable_⟩ :: outer })

/-- `CodeGenerator::lookupLocal`: innermost scope first. -/
def lookupLocalScopes : List (List (String × Variable)) → String → Option Variable
  | [], _ => none
  | sc :: rest, name =>
    match assocGet sc name with
    | some v => some v
    | none => lookupLocalScopes rest name

/-- The System V integer argument registers (codegen.cpp:434, 668). -/
def paramRegs : List String := ["rdi", "rsi", "rdx", "rcx", "r8", "r9"]

/-- Marker for the operand of a float literal: the C++ code reinterprets
the parsed `double` as its IEEE-754 bit pattern
(`std::memcpy(&bits, &val, ...)`, codegen.cpp:477-480), which this
integer embedding leaves abstract as a function of the lexeme.  No claim
below touches float literals. -/
def floatBits (lexeme : String) : String := "float64_bits(" ++ lexeme ++ ")"

/-- The operator dispatch at the tail of `CodeGenerator::generateBinary`
(codegen.cpp:554-591); an operator outside the table emits nothing. -/
def binOpLines (op : String) : List String :=
  if op = "+" then [emitL "add rax, rcx"]
  else if op = "-" then [emitL "sub rax, rcx"]
  else if op = "*" then [emitL "imul rax, rcx"]
  else if op = "/" then [emitL "cqo", emitL "idiv rcx"]
  else if op = "%" then [emitL "cqo", emitL "idiv rcx", emitL "mov rax, rdx"]
  else if op = "==" then [emitL "cmp rax, rcx", emitL "sete al", emitL "movzx rax, al"]
  else if op = "!=" then [emitL "cmp rax, rcx", emitL "setne al", emitL "movzx rax, al"]
  else if op = "<" then [emitL "cmp rax, rcx", emitL "setl al", emitL "movzx rax, al"]
  else if op = ">" then [emitL "cmp rax, rcx", emitL "setg al", emitL "movzx rax, al"]
  else if op = "<=" then [emitL "cmp rax, rcx", emitL "setle al", emitL "movzx rax, al"]
  else if op = ">=" then [emitL "cmp rax, rcx", emitL "setge al", emitL "movzx rax, al"]
  else []

/-- `CodeGenerator::generateUnary` dispatch (codegen.cpp:597-605); an
operator outside the table emits nothing after the operand. -/
def unaryOpLines (op : String) : List String :=
  if op = "-" then [emitL "neg rax"]
  else if op = "!" then [emitL "test rax, rax", emitL "setz al", emitL "movzx rax, al"]
  else if op = "~" then [emitL "not rax"]
  else []

/-- Whether `generateCall` takes its `io.print` / `io.println` fast path
(codegen.cpp:610-612): the callee is a member access whose property is
`print` or `println`. -/
def isPrintCallee : Expr → Bool
  | Expr.member _ property => property = "print" ∨ property = "println"
  | _ => false

/-- The mangled name for the regular-call path of `generateCall`
(codegen.cpp:660-663): `_user_<name>` for an identifier callee, the empty
string otherwise. -/
def calleeName : Expr → String
  | Expr.identifier name => "_user_" ++ name
  | _ => ""

mutual

/-- `CodeGenerator::generateExpression` with `generateLiteral`,
`generateIdentifier`, `generateBinary`, `generateUnary` and
`generateMember` inlined (codegen.cpp:457-605, 687-689). -/
def genExpr : Expr → CGState → List String × CGState
  | Expr.literal value _, s =>
    match value with
    | LitValue.intVal v => ([emitL ("mov rax, " ++ toString v)], s)
    | LitValue.floatVal lex =>
      ([emitL ("mov rax, " ++ floatBits lex), emitL "movq xmm0, rax"], s)
    | LitValue.boolVal b => ([emitL ("mov rax, " ++ (if b then "1" else "0"))], s)
    | LitValue.charVal _ => ([], s)
    | LitValue.strVal str =>
      let label := ".LC" ++ toString s.stringCounter
      let s1 := { s with stringCounter := s.stringCounter + 1,
                         stringLiterals := assocSet s.stringLiterals label str }
      ([emitL ("lea rax, [" ++ label ++ "]")], s1)
  | Expr.identifier name, s =>
    match lookupLocalScopes s.scopes name with
    | some var => ([emitL ("mov rax, [rbp-" ++ toString var.stackOffset ++ "]")], s)
    | none => ([emitL "xor eax, eax"], s)
  | Expr.binary op left right, s =>
    if op = "&&" then
      let falseLabel := ".Land_false_" ++ toString s.labelCounter
      let endLabel := ".Land_end_" ++ toString (s.labelCounter + 1)
      let s0 := { s with labelCounter := s.labelCounter + 2 }
      let r1 := genExpr left s0
      let r2 := genExpr right r1.2
      (r1.1 ++ [emitL "test rax, rax", emitL ("jz " ++ falseLabel)] ++
        r2.1 ++ [emitL "test rax, rax", emitL ("jz " ++ falseLabel),
          emitL "mov rax, 1", emitL ("jmp " ++ endLabel),
          labelL falseLabel, emitL "xor eax, eax", labelL endLabel], r2.2)
    else if op = "||" then
      let trueLabel := ".Lor_true_" ++ toString s.labelCounter
      let endLabel := ".Lor_end_" ++ toString (s.labelCounter + 1)
      let s0 := { s with labelCounter := s.labelCounter + 2 }
      let r1 := genExpr left s0
      let r2 := genExpr right r1.2
      (r1.1 ++ [emitL "test rax, rax", emitL ("jnz " ++ trueLabel)] ++
        r2.1 ++ [emitL "test rax, rax", emitL ("jnz " ++ trueLabel),
          emitL "xor eax, eax", emitL ("jmp " ++ endLabel),
          labelL trueLabel, emitL "mov rax, 1", labelL endLabel], r2.2)
    else
      let r1 := genExpr left s
      let r2 := genExpr right r1.2
      (r1.1 ++ [emitL "push rax"] ++ r2.1 ++
        [emitL "mov rcx, rax", emitL "pop rax"] ++ binOpLines op, r2.2)
  | Expr.unary op operand, s =>
    let r := genExpr operand s
    (r.1 ++ unaryOpLines op, r.2)
  | Expr.call callee arguments, s =>
    if isPrintCallee callee then
      match arguments with
      | [] => ([emitL "xor eax, eax"], s)
      | arg0 :: _ =>
        let r0 := genExpr arg0 s
        let dispatch :=
          match arg0 with
          | Expr.literal _ t =>
            if t.primitive = PrimitiveType.STRING then
              [emitL "mov rdi, rax", emitL "call _print_str"]
            else if t.primitive = PrimitiveType.FLOAT then
              [emitL "movq xmm0, rax", emitL "call _print_float"]
            else if t.primitive = PrimitiveType.BOOL then
              [emitL "mov edi, eax", emitL "call _print_bool"]
            else [emitL "mov rdi, rax", emitL "call _print_int"]
          | _ => [emitL "mov rdi, rax", emitL "call _print_int"]
        (r0.1 ++ dispatch ++ [emitL "xor eax, eax"], r0.2)
    else
      let rPush := genArgsPushLoop 6 arguments s
      let rRegs := genArgsRegs paramRegs arguments rPush.2
      (rPush.1 ++ rRegs.1 ++ [emitL ("call " ++ calleeName callee)], rRegs.2)
  | Expr.member object _, s => genExpr object s

/-- The excess-argument push loop of `generateCall` (codegen.cpp:673-676):
skip the first `numRegs` arguments, then emit the remaining ones in
reverse (index `size-1` down to `numRegs`), each followed by
`push rax` — emitting the recursive tail before the head element yields
exactly the C++ right-to-left order. -/
def genArgsPushLoop : Nat → List Expr → CGState → List String × CGState
  | _, [], s => ([], s)
  | 0, a :: rest, s =>
    let r1 := genArgsPushLoop 0 rest s
    let r2 := genExpr a r1.2
    (r1.1 ++ r2.1 ++ [emitL "push rax"], r2.2)
  | n + 1, _ :: rest, s => genArgsPushLoop n rest s

/-- The register-argument loop of `generateCall` (codegen.cpp:679-682):
evaluate each of the first `numRegs` arguments and move it to its
register. -/
def genArgsRegs : List String → List Expr → CGState → List String × CGState
  | _, [], s => ([], s)
  | [], _ :: _, s => ([], s)
  | reg :: regs, a :: rest, s =>
    let r1 := genExpr a s
    let r2 := genArgsRegs regs rest r1.2
    (r1.1 ++ [emitL ("mov " ++ reg ++ ", rax")] ++ r2.1, r2.2)

end

mutual

/-- `CodeGenerator::generateStatement` with the per-statement generators
inlined (codegen.cpp:263-411).  A nested `FunctionStmt` emits nothing
(already handled at top level), and `ImportStmt` has no branch in the
C++ dispatch. -/
def genStmt : Stmt → CGState → List String × CGState
  | Stmt.letStmt name type value mutable_, s =>
    let r := genExpr value s
    let d := r.2.declareLocal name type mutable_
    ([commentL ("let " ++ name)] ++ r.1 ++
      [emitL ("mov [rbp-" ++ toString d.1 ++ "], rax")], d.2)
  | Stmt.assignStmt target value, s =>
    let r := genExpr value s
    let store :=
      match lookupLocalScopes r.2.scopes target with
      | some var => [emitL ("mov [rbp-" ++ toString var.stackOffset ++ "], rax")]
      | none => []
    ([commentL ("assign " ++ target)] ++ r.1 ++ store, r.2)
  | Stmt.exprStmt e, s => genExpr e s
  | Stmt.ifStmt condition thenBranch elseBranch, s =>
    let elseLabel := ".Lelse_" ++ toString s.labelCounter
    let endLabel := ".Lendif_" ++ toString (s.labelCounter + 1)
    let s0 := { s with labelCounter := s.labelCounter + 2 }
    let rc := genExpr condition s0
    let rt := genStmtList thenBranch (enterScopeCG rc.2)
    let s2 := exitScopeCG rt.2
    if elseBranch.isEmpty then
      ([commentL "if"] ++ rc.1 ++ [emitL "test rax, rax", emitL ("jz " ++ elseLabel)] ++
        rt.1 ++ [emitL ("jmp " ++ endLabel), labelL elseLabel, labelL endLabel], s2)
    else
      let re := genStmtList elseBranch (enterScopeCG s2)
      ([commentL "if"] ++ rc.1 ++ [emitL "test rax, rax", emitL ("jz " ++ elseLabel)] ++
        rt.1 ++ [emitL ("jmp " ++ endLabel), labelL elseLabel] ++ re.1 ++
        [labelL endLabel], exitScopeCG re.2)
  | Stmt.whileStmt condition body, s =>
    let startLabel := ".Lwhile_" ++ toString s.labelCounter
    let endLabel := ".Lendwhile_" ++ toString (s.labelCounter + 1)
    let s0 := { s with labelCounter := s.labelCounter + 2,
                       breakLabel := (s.labelCounter : Int) + 2,
                       continueLabel := (s.labelCounter : Int) + 1 }
    let rc := genExpr condition s0
    let rb := genStmtList body (enterScopeCG rc.2)
    let s3 := exitScopeCG rb.2
    ([labelL startLabel, commentL "while condition"] ++ rc.1 ++
      [emitL "test rax, rax", emitL ("jz " ++ endLabel)] ++ rb.1 ++
      [emitL ("jmp " ++ startLabel), labelL endLabel],
      { s3 with breakLabel := s.breakLabel, continueLabel := s.continueLabel })
  | Stmt.forStmt init condition update body, s =>
    let startLabel := ".Lfor_" ++ toString s.labelCounter
    let updateLabel := ".Lforupd_" ++ toString (s.labelCounter + 1)
    let endLabel := ".Lendfor_" ++ toString (s.labelCounter + 2)
    let s0 := { s with labelCounter := s.labelCounter + 3,
                       breakLabel := (s.labelCounter : Int) + 3,
                       continueLabel := (s.labelCounter : Int) + 2 }
    let ri := genStmt init (enterScopeCG s0)
    let rc := genExpr condition ri.2
    let rb := genStmtList body rc.2
    let ru := genStmt update rb.2
    ((ri.1 ++ [labelL startLabel, commentL "for condition"] ++ rc.1 ++
      [emitL "test rax, rax", emitL ("jz " ++ endLabel)] ++ rb.1 ++
      [labelL updateLabel] ++ ru.1 ++ [emitL ("jmp " ++ startLabel), labelL endLabel]),
      { exitScopeCG ru.2 with breakLabel := s.breakLabel, continueLabel := s.continueLabel })
  | Stmt.returnStmt value, s =>
    let r :=
      match value with
      | some v => genExpr v s
      | none => ([emitL "xor eax, eax"], s)
    ([commentL "return"] ++ r.1 ++
      [emitL "mov rsp, rbp", emitL "pop rbp", emitL "ret"], r.2)
  | Stmt.functionStmt _ _ _ _, s => ([], s)
  | Stmt.breakStmt, s =>
    (if s.breakLabel ≥ 0 then [emitL ("jmp .L" ++ toString s.breakLabel)] else [], s)
  | Stmt.continueStmt, s =>
    (if s.continueLabel ≥ 0 then [emitL ("jmp .L" ++ toString s.continueLabel)] else [], s)
  | Stmt.importStmt _ _, s => ([], s)

/-- A statement sequence, emitted in order with the state threaded. -/
def genStmtList : List Stmt → CGState → List String × CGState
  | [], s => ([], s)
  | st1 :: rest, s =>
    let r1 := genStmt st1 s
    let r2 := genStmtList rest r1.2
    (r1.1 ++ r2.1, r2.2)

end

/-- The parameter-storing loop of `generateFunctionStmt`
(codegen.cpp:438-441): the first `numRegs` parameters are declared as
locals and spilled from their registers. -/
def genFunctionParams : List String → List Param → CGState → List String × CGState
  | _, [], s => ([], s)
  | [], _ :: _, s => ([], s)
  | reg :: regs, p :: ps, s =>
    let d := s.declareLocal p.name p.type false
    let r := genFunctionParams regs ps d.2
    ([emitL ("mov [rbp-" ++ toString d.1 ++ "], " ++ reg)] ++ r.1, r.2)

/-- `CodeGenerator::generateFunctionStmt` (codegen.cpp:413-455).  Note
`stackOffset_ = 0` on entry; the return type is not used. -/
def genFunctionStmt (name : String) (params : List Param) (_returnType : TypeInfo)
    (body : List Stmt) (s : CGState) : List String × CGState :=
  let s1 := { s with currentFunction := name, inFunction := true, stackOffset := 0 }
  let funcName := if name = "main" then name else "_user_" ++ name
  let rp := genFunctionParams paramRegs params (enterScopeCG s1)
  let rb := genStmtList body rp.2
  ([labelL funcName, emitL "push rbp", emitL "mov rbp, rsp", emitL "sub rsp, 128"] ++
    rp.1 ++ rb.1 ++
    [emitL "xor eax, eax", emitL "mov rsp, rbp", emitL "pop rbp", emitL "ret"],
    { exitScopeCG rb.2 with inFunction := false })

/-- The function-collecting loop of `CodeGenerator::generate`
(codegen.cpp:78-84). -/
def collectFunctions : List Stmt → List Stmt
  | [] => []
  | st1 :: rest =>
    match st1 with
    | Stmt.functionStmt _ _ _ _ => st1 :: collectFunctions rest
    | _ => collectFunctions rest

/-- The main-statement-collecting loop of `CodeGenerator::generate`:
everything that is neither a `FunctionStmt` nor an `ImportStmt`. -/
def collectMain : List Stmt → List Stmt
  | [] => []
  | st1 :: rest =>
    match st1 with
    | Stmt.functionStmt _ _ _ _ => collectMain rest
    | Stmt.importStmt _ _ => collectMain rest
    | _ => st1 :: collectMain rest

/-- The user-function emission loop of `generate` (codegen.cpp:105-108):
each function followed by a blank line.  It is only applied to
`collectFunctions` output, so the fall-through case is unreachable
there. -/
def genFunctions : List Stmt → CGState → List String × CGState
  | [], s => ([], s)
  | Stmt.functionStmt n ps rt b :: rest, s =>
    let r1 := genFunctionStmt n ps rt b s
    let r2 := genFunctions rest r1.2
    (r1.1 ++ [""] ++ r2.1, r2.2)
  | _ :: rest, s => genFunctions rest s

/-- The assembly header for the non-`_WIN32` configuration
(codegen.cpp:94-99) followed by `section .text` (codegen.cpp:103). -/
def headerLines : List String :=
  ["; Strata Compiler - x86-64 Assembly (Linux/macOS)", "; Generated code", "",
   "default rel", "global main", "extern printf", "", "section .text", ""]

/-- `CodeGenerator::generateBuiltinPrint`, non-`_WIN32` branches
(codegen.cpp:165-238), followed by the blank line `generate` writes after
it. -/
def builtinPrintLines : List String :=
  ["_print_int:",
   emitL "push rbp", emitL "mov rbp, rsp", emitL "sub rsp, 32",
   emitL "mov rsi, rdi", emitL "lea rdi, [fmt_int]", emitL "xor eax, eax",
   emitL "call printf", emitL "mov rsp, rbp", emitL "pop rbp", emitL "ret",
   "", "_print_float:",
   emitL "push rbp", emitL "mov rbp, rsp", emitL "sub rsp, 32",
   emitL "lea rdi, [fmt_float]", emitL "mov eax, 1",
   emitL "call printf", emitL "mov rsp, rbp", emitL "pop rbp", emitL "ret",
   "", "_print_str:",
   emitL "push rbp", emitL "mov rbp, rsp", emitL "sub rsp, 32",
   emitL "mov rsi, rdi", emitL "lea rdi, [fmt_str]", emitL "xor eax, eax",
   emitL "call printf", emitL "mov rsp, rbp", emitL "pop rbp", emitL "ret",
   "", "_print_bool:",
   emitL "push rbp", emitL "mov rbp, rsp", emitL "sub rsp, 32",
   emitL "test edi, edi", emitL "lea rsi, [str_true]", emitL "lea rax, [str_false]",
   emitL "cmovz rsi, rax", emitL "lea rdi, [fmt_str]", emitL "xor eax, eax",
   emitL "call printf", emitL "mov rsp, rbp", emitL "pop rbp", emitL "ret",
   ""]

/-- One `db` line of `generateDataSection` for an interned string
(codegen.cpp:249-256): comma-separated decimal byte values, then a NUL. -/
def stringLiteralLine (label value : String) : String :=
  "    " ++ label ++ ": db " ++
    String.intercalate ", " (value.toList.map (fun ch => toString ch.toNat)) ++ ", 0"

/-- `CodeGenerator::generateDataSection` (codegen.cpp:240-257).  The C++
code iterates an `unordered_map` in unspecified order; the embedding uses
insertion order.  No claim depends on the order of these lines. -/
def dataSectionLines (lits : List (String × String)) : List String :=
  ["", "section .data",
   "    fmt_int: db \"%lld\", 10, 0",
   "    fmt_float: db \"%g\", 10, 0",
   "    fmt_str: db \"%s\", 10, 0",
   "    str_true: db \"true\", 0",
   "    str_false: db \"false\", 0"] ++
  lits.map (fun p => stringLiteralLine p.1 p.2)

/-- The code-generator state on entry to `main`'s statement loop: the
state left by emitting all user functions (`generateBuiltinPrint` and the
prologue write no state), after the `enterScope()` of `generate`
(codegen.cpp:118). -/
def mainEntryState (statements : List Stmt) : CGState :=
  enterScopeCG (genFunctions (collectFunctions statements) cgInit).2

/-- `CodeGenerator::generate` (codegen.cpp:70-138): header, user
functions, builtin printers, `main` (prologue, top-level statements, exit
sequence), data and bss sections. -/
def generate (statements : List Stmt) : List String :=
  let dFns := (genFunctions (collectFunctions statements) cgInit).1
  let rMain := genStmtList (collectMain statements) (mainEntryState statements)
  headerLines ++ dFns ++ builtinPrintLines ++
  ["main:", emitL "push rbp", emitL "mov rbp, rsp", emitL "sub rsp, 256"] ++
  rMain.1 ++
  [emitL "xor eax, eax", emitL "mov rsp, rbp", emitL "pop rbp", emitL "ret"] ++
  dataSectionLines (exitScopeCG rMain.2).stringLiterals ++
  ["", "section .bss"]

/-! ## Claim theorems -/

/-- Shorthand for the non-optional primitive types used by the concrete
programs below. -/
def intT : TypeInfo := ⟨PrimitiveType.INT, false⟩

def floatT : TypeInfo := ⟨PrimitiveType.FLOAT, false⟩

def boolT : TypeInfo := ⟨PrimitiveType.BOOL, false⟩

def strT : TypeInfo := ⟨PrimitiveType.STRING, false⟩

def anyT : TypeInfo := ⟨PrimitiveType.ANY, false⟩

def voidT : TypeInfo := ⟨PrimitiveType.VOID, false⟩

/-- An integer literal expression as the parser builds it. -/
def litInt (n : Int) : Expr := Expr.literal (LitValue.intVal n) intT

/-- C6.  `TypeInfo::isCompatible(actual, expected)` holds iff either
side's tag is ANY, the tags are equal, actual is INT and expected FLOAT,
or actual is CHAR and expected STRING; the optional flags never matter;
and the relation is not symmetric (FLOAT against INT fails while INT
against FLOAT holds). -/
theorem C6_isCompatible_characterization :
    (∀ a b : TypeInfo, a.isCompatible b = true ↔
      (a.primitive = PrimitiveType.ANY ∨ b.primitive = PrimitiveType.ANY ∨
       a.primitive = b.primitive ∨
       (a.primitive = PrimitiveType.INT ∧ b.primitive = PrimitiveType.FLOAT) ∨
       (a.primitive = PrimitiveType.CHAR ∧ b.primitive = PrimitiveType.STRING))) ∧
    (∀ (p q : PrimitiveType) (o1 o2 o3 o4 : Bool),
      TypeInfo.isCompatible ⟨p, o1⟩ ⟨q, o2⟩ = TypeInfo.isCompatible ⟨p, o3⟩ ⟨q, o4⟩) ∧
    TypeInfo.isCompatible ⟨PrimitiveType.FLOAT, false⟩ ⟨PrimitiveType.INT, false⟩ = false ∧
    TypeInfo.isCompatible ⟨PrimitiveType.INT, false⟩ ⟨PrimitiveType.FLOAT, false⟩ = true := by
  refine ⟨?_, ?_, by decide, by decide⟩
  · rintro ⟨p, o1⟩ ⟨q, o2⟩
    cases p <;> cases q <;> simp [TypeInfo.isCompatible]
  · intro p q o1 o2 o3 o4
    cases p <;> cases q <;> rfl

/-- The `while (true) { break continue }` program: the concrete input on
which claim C1 is evaluated. -/
def progC1 : List Stmt :=
  [Stmt.whileStmt (Expr.literal (LitValue.boolVal true) boolT)
    [Stmt.breakStmt, Stmt.continueStmt]]

/-- Whether an emitted line defines the label `label`: `emitLabel` writes
`label ++ ":"` at column 0, function/builtin labels are also written at
column 0, and the data-section lines define their labels after the
four-space indent. -/
def definesLabel (line label : String) : Bool :=
  (label ++ ":").data.isPrefixOf line.data || ("    " ++ label ++ ":").data.isPrefixOf line.data

/-- C1 (code bug, evaluated at `progC1`).  The loop's labels are
`.Lwhile_0` / `.Lendwhile_1`, but the `break` in the body emits
`jmp .L2` and the `continue` emits `jmp .L1` (raw `breakLabel_` /
`continueLabel_` counter values), and no line of the compilation unit
defines a label `.L2` or `.L1`; no `jmp` to `.Lendwhile_1` is emitted at
all. -/
theorem C1_break_continue_jump_targets_undefined :
    (generate progC1).contains "    jmp .L2" = true ∧
    (generate progC1).contains "    jmp .L1" = true ∧
    (generate progC1).contains ".Lwhile_0:" = true ∧
    (generate progC1).contains ".Lendwhile_1:" = true ∧
    (generate progC1).contains "    jmp .Lendwhile_1" = false ∧
    ((generate progC1).all fun line =>
      !(definesLabel line ".L2") && !(definesLabel line ".L1")) = true := by
  decide

/-- The S5 program `let s: string = "hi"` followed by `io.print(s)`: the
concrete input on which claim C2 is evaluated. -/
def progC2 : List Stmt :=
  [Stmt.letStmt "s" strT (Expr.literal (LitValue.strVal "hi") strT) false,
   Stmt.exprStmt (Expr.call (Expr.member (Expr.identifier "io") "print")
     [Expr.identifier "s"])]

/-- C2 (code bug, evaluated at `progC2`).  The program type-checks, the
printed variable's static type is STRING, yet the emitted code calls
`_print_int` and never `_print_str`: `generateCall` inspects the
argument's carried type only when the argument is a literal expression,
and every non-literal argument takes the `_print_int` branch. -/
theorem C2_print_string_variable_calls_print_int :
    (typeCheck progC2).isOk = true ∧
    ((checkStmtList tcInit [progC2.headD Stmt.breakStmt]).toOption.map
      (fun st => st.lookupVariable "s")) = some (some ⟨strT, false⟩) ∧
    (generate progC2).contains "    call _print_int" = true ∧
    (generate progC2).contains "    call _print_str" = false := by
  refine ⟨by decide, by decide, by decide, by decide⟩

/-- C5 counterexample.  The claim says a `&&` whose left operand is BOOL
but whose right operand is INT is rejected; the checker accepts it (only
the left operand is constrained) and returns BOOL.  The second conjunct
records that the right operand's static type really is INT. -/
theorem C5_counterexample_right_int_accepted :
    checkExpression tcInit
      (Expr.binary "&&" (Expr.literal (LitValue.boolVal true) boolT) (litInt 1)) =
      Except.ok boolT ∧
    checkExpression tcInit (litInt 1) = Except.ok intT := by
  exact ⟨rfl, rfl⟩

/-- C5 (amended).  Type-checking `A && B` or `A || B` (with both operand
checks succeeding) returns BOOL, and raises the type error "Logical
operator requires boolean operands" if and only if the LEFT operand's
static type is neither BOOL nor ANY; the right operand's type is not
constrained. -/
theorem C5_logical_operator_left_operand_rule (st : TCState) (op : String)
    (l r : Expr) (tl tr : TypeInfo)
    (hop : op = "&&" ∨ op = "||")
    (hl : checkExpression st l = Except.ok tl)
    (hr : checkExpression st r = Except.ok tr) :
    checkExpression st (Expr.binary op l r) =
      if tl.primitive = PrimitiveType.BOOL ∨ tl.primitive = PrimitiveType.ANY then
        Except.ok boolT
      else Except.error "Logical operator requires boolean operands" := by
  rcases hop with rfl | rfl <;>
  · simp only [checkExpression, hl, hr]
    rw [if_neg (by decide), if_pos (by decide)]
    by_cases hb : tl.primitive = PrimitiveType.BOOL ∨ tl.primitive = PrimitiveType.ANY
    · rw [if_neg (show ¬(tl.primitive ≠ PrimitiveType.BOOL ∧
        tl.primitive ≠ PrimitiveType.ANY) by tauto), if_pos hb]
      rfl
    · rw [if_pos (show tl.primitive ≠ PrimitiveType.BOOL ∧
        tl.primitive ≠ PrimitiveType.ANY by tauto), if_neg hb]

/-- C5 witness: the amended rule applied at `true && false`. -/
theorem C5_witness :
    checkExpression tcInit
      (Expr.binary "&&" (Expr.literal (LitValue.boolVal true) boolT)
        (Expr.literal (LitValue.boolVal false) boolT)) = Except.ok boolT := by
  have h := C5_logical_operator_left_operand_rule tcInit "&&"
    (Expr.literal (LitValue.boolVal true) boolT)
    (Expr.literal (LitValue.boolVal false) boolT) boolT boolT (Or.inl rfl) rfl rfl
  simpa using h

/-- C9.  The contract of `checkAssignStmt`: "Undefined variable: <name>"
when the target resolves in no scope; "Cannot assign to immutable
variable: <name>" when it resolves but is not mutable; "Type mismatch in
assignment" when the value's type is incompatible with the variable's
type; otherwise success with the checker state (variable bindings
included) returned unchanged. -/
theorem C9_assign_statement_contract (st : TCState) (target : String) (value : Expr) :
    (st.lookupVariable target = none →
      checkStatement st (Stmt.assignStmt target value) =
        Except.error ("Undefined variable: " ++ target)) ∧
    (∀ v : VariableInfo, st.lookupVariable target = some v → v.mutable_ = false →
      checkStatement st (Stmt.assignStmt target value) =
        Except.error ("Cannot assign to immutable variable: " ++ target)) ∧
    (∀ (v : VariableInfo) (t : TypeInfo), st.lookupVariable target = some v →
      v.mutable_ = true → checkExpression st value = Except.ok t →
      t.isCompatible v.type = false →
      checkStatement st (Stmt.assignStmt target value) =
        Except.error "Type mismatch in assignment") ∧
    (∀ (v : VariableInfo) (t : TypeInfo), st.lookupVariable target = some v →
      v.mutable_ = true → checkExpression st value = Except.ok t →
      t.isCompatible v.type = true →
      checkStatement st (Stmt.assignStmt target value) = Except.ok st) := by
  refine ⟨?_, ?_, ?_, ?_⟩
  · intro hnone
    simp only [checkStatement, hnone]
  · intro v hsome himm
    simp only [checkStatement, hsome, himm]
    simp
  · intro v t hsome hmut hval hcompat
    simp only [checkStatement, hsome, hmut, hval, hcompat]
    simp
  · intro v t hsome hmut hval hcompat
    simp only [checkStatement, hsome, hmut, hval, hcompat]
    simp

/-- A checker state with an immutable `x : int` (after `let x: int = 1`). -/
def stImm : TCState := tcInit.declareVariable "x" intT false

/-- A checker state with a mutable `x : int` (after `var x: int = 1`). -/
def stMut : TCState := tcInit.declareVariable "x" intT true

/-- C9 witness: the four branches of the contract at concrete states,
including the spec's S4 scenario (`let x: int = 1` then `x = 2` raises
"Cannot assign to immutable variable: x"). -/
theorem C9_witness :
    checkStatement tcInit (Stmt.assignStmt "y" (litInt 2)) =
      Except.error ("Undefined variable: " ++ "y") ∧
    checkStatement stImm (Stmt.assignStmt "x" (litInt 2)) =
      Except.error ("Cannot assign to immutable variable: " ++ "x") ∧
    checkStatement stMut
      (Stmt.assignStmt "x" (Expr.literal (LitValue.boolVal true) boolT)) =
      Except.error "Type mismatch in assignment" ∧
    checkStatement stMut (Stmt.assignStmt "x" (litInt 2)) = Except.ok stMut := by
  refine ⟨(C9_assign_statement_contract tcInit "y" (litInt 2)).1 (by decide),
    (C9_assign_statement_contract stImm "x" (litInt 2)).2.1 ⟨intT, false⟩ (by decide) rfl,
    (C9_assign_statement_contract stMut "x"
      (Expr.literal (LitValue.boolVal true) boolT)).2.2.1 ⟨intT, true⟩ boolT
      (by decide) rfl rfl (by decide),
    (C9_assign_statement_contract stMut "x" (litInt 2)).2.2.2 ⟨intT, true⟩ intT
      (by decide) rfl rfl (by decide)⟩

/-- Two label strings with distinct prefixes (before the counter digits)
are never equal, whatever the counters are. -/
theorem label_prefix_ne (x y : String) :
    (".Land_false_" ++ x ≠ ".Land_end_" ++ y) ∧ (".Lor_true_" ++ x ≠ ".Lor_end_" ++ y) := by
  constructor
  · intro h
    have hd := congrArg (fun s => s.data[6]?) h
    simp [String.data_append] at hd
  · intro h
    have hd := congrArg (fun s => s.data[5]?) h
    simp [String.data_append] at hd

/-- C4.  For `A && B` the generator emits: A's code; `test rax, rax`;
`jz` to the false label; B's code; `test rax, rax`; the same `jz`; the
constant 1; an unconditional `jmp` over the false arm to the end label;
the false label with the constant 0; the end label.  For `A || B` it
emits the dual with `jnz` to the true label, constant 0 falling through
and constant 1 at the true label.  The two labels of each fragment are
distinct, so the `jmp` lands past the other constant.  B's code sits
strictly between the first conditional jump and the second test, so it is
bypassed exactly when A's value already decides the outcome, and each
exit of the fragment sets `rax` to 0 or 1. -/
theorem C4_short_circuit_emission (a b : Expr) (s : CGState) :
    (genExpr (Expr.binary "&&" a b) s =
      (let fl := ".Land_false_" ++ toString s.labelCounter
       let el := ".Land_end_" ++ toString (s.labelCounter + 1)
       let r1 := genExpr a { s with labelCounter := s.labelCounter + 2 }
       let r2 := genExpr b r1.2
       (r1.1 ++ [emitL "test rax, rax", emitL ("jz " ++ fl)] ++
        r2.1 ++ [emitL "test rax, rax", emitL ("jz " ++ fl),
          emitL "mov rax, 1", emitL ("jmp " ++ el),
          labelL fl, emitL "xor eax, eax", labelL el], r2.2))) ∧
    (genExpr (Expr.binary "||" a b) s =
      (let tl := ".Lor_true_" ++ toString s.labelCounter
       let el := ".Lor_end_" ++ toString (s.labelCounter + 1)
       let r1 := genExpr a { s with labelCounter := s.labelCounter + 2 }
       let r2 := genExpr b r1.2
       (r1.1 ++ [emitL "test rax, rax", emitL ("jnz " ++ tl)] ++
        r2.1 ++ [emitL "test rax, rax", emitL ("jnz " ++ tl),
          emitL "xor eax, eax", emitL ("jmp " ++ el),
          labelL tl, emitL "mov rax, 1", labelL el], r2.2))) ∧
    ".Land_false_" ++ toString s.labelCounter ≠
      ".Land_end_" ++ toString (s.labelCounter + 1) ∧
    ".Lor_true_" ++ toString s.labelCounter ≠
      ".Lor_end_" ++ toString (s.labelCounter + 1) := by
  exact ⟨rfl, rfl, (label_prefix_ne _ _).1, (label_prefix_ne _ _).2⟩

/-! Expression generation never touches the stack-frame allocator:
`allocateStack` is only reached through `declareLocal`, which only
statement generation calls. -/

mutual

theorem genExpr_stackOffset : ∀ (e : Expr) (s : CGState),
    ((genExpr e s).2).stackOffset = s.stackOffset
  | Expr.literal value _, s => by cases value <;> simp [genExpr]
  | Expr.identifier nm, s => by
    simp only [genExpr]
    cases lookupLocalScopes s.scopes nm <;> simp
  | Expr.binary op l r, s => by
    by_cases h1 : op = "&&"
    · simp only [genExpr, if_pos h1]
      rw [genExpr_stackOffset r _, genExpr_stackOffset l _]
    · by_cases h2 : op = "||"
      · simp only [genExpr, if_neg h1, if_pos h2]
        rw [genExpr_stackOffset r _, genExpr_stackOffset l _]
      · simp only [genExpr, if_neg h1, if_neg h2]
        rw [genExpr_stackOffset r _, genExpr_stackOffset l _]
  | Expr.unary op operand, s => by
    simp only [genExpr]
    rw [genExpr_stackOffset operand _]
  | Expr.call callee [], s => by
    by_cases hp : isPrintCallee callee = true
    · simp [genExpr.eq_9, hp]
    · simp only [genExpr.eq_9, if_neg hp]
      rw [genArgsRegs_stackOffset paramRegs [] _, genArgsPushLoop_stackOffset 6 [] s]
  | Expr.call callee (Expr.literal value t :: tail), s => by
    by_cases hp : isPrintCallee callee = true
    · simp only [genExpr.eq_10, if_pos hp]
      exact genExpr_stackOffset (Expr.literal value t) s
    · simp only [genExpr.eq_10, if_neg hp]
      rw [genArgsRegs_stackOffset paramRegs _ _, genArgsPushLoop_stackOffset 6 _ s]
  | Expr.call callee (Expr.identifier nm :: tail), s => by
    rw [genExpr.eq_11 s callee _ tail (fun v t h => Expr.noConfusion h)]
    by_cases hp : isPrintCallee callee = true
    · simp only [if_pos hp]
      exact genExpr_stackOffset (Expr.identifier nm) s
    · simp only [if_neg hp]
      rw [genArgsRegs_stackOffset paramRegs _ _, genArgsPushLoop_stackOffset 6 _ s]
  | Expr.call callee (Expr.binary op l r :: tail), s => by
    rw [genExpr.eq_11 s callee _ tail (fun v t h => Expr.noConfusion h)]
    by_cases hp : isPrintCallee callee = true
    · simp only [if_pos hp]
      exact genExpr_stackOffset (Expr.binary op l r) s
    · simp only [if_neg hp]
      rw [genArgsRegs_stackOffset paramRegs _ _, genArgsPushLoop_stackOffset 6 _ s]
  | Expr.call callee (Expr.unary op o1 :: tail), s => by
    rw [genExpr.eq_11 s callee _ tail (fun v t h => Expr.noConfusion h)]
    by_cases hp : isPrintCallee callee = true
    · simp only [if_pos hp]
      exact genExpr_stackOffset (Expr.unary op o1) s
    · simp only [if_neg hp]
      rw [genArgsRegs_stackOffset paramRegs _ _, genArgsPushLoop_stackOffset 6 _ s]
  | Expr.call callee (Expr.call c2 as2 :: tail), s => by
    rw [genExpr.eq_11 s callee _ tail (fun v t h => Expr.noConfusion h)]
    by_cases hp : isPrintCallee callee = true
    · simp only [if_pos hp]
      exact genExpr_stackOffset (Expr.call c2 as2) s
    · simp only [if_neg hp]
      rw [genArgsRegs_stackOffset paramRegs _ _, genArgsPushLoop_stackOffset 6 _ s]
  | Expr.call callee (Expr.member o2 pr :: tail), s => by
    rw [genExpr.eq_11 s callee _ tail (fun v t h => Expr.noConfusion h)]
    by_cases hp : isPrintCallee callee = true
    · simp only [if_pos hp]
      exact genExpr_stackOffset (Expr.member o2 pr) s
    · simp only [if_neg hp]
      rw [genArgsRegs_stackOffset paramRegs _ _, genArgsPushLoop_stackOffset 6 _ s]
  | Expr.member object _, s => genExpr_stackOffset object s

theorem genArgsPushLoop_stackOffset : ∀ (n : Nat) (args : List Expr) (s : CGState),
    ((genArgsPushLoop n args s).2).stackOffset = s.stackOffset
  | 0, [], s => by simp [genArgsPushLoop]
  | _ + 1, [], s => by simp [genArgsPushLoop]
  | 0, a :: rest, s => by
    simp only [genArgsPushLoop]
    rw [genExpr_stackOffset a _, genArgsPushLoop_stackOffset 0 rest s]
  | n + 1, _ :: rest, s => by
    simp only [genArgsPushLoop]
    exact genArgsPushLoop_stackOffset n rest s

theorem genArgsRegs_stackOffset : ∀ (regs : List String) (args : List Expr) (s : CGState),
    ((genArgsRegs regs args s).2).stackOffset = s.stackOffset
  | _, [], s => by cases ‹List String› <;> simp [genArgsRegs]
  | [], _ :: _, s => by simp [genArgsRegs]
  | reg :: regs, a :: rest, s => by
    simp only [genArgsRegs]
    rw [genArgsRegs_stackOffset regs rest _, genExpr_stackOffset a s]

end

/-- Folding `genFunctions` over a list ending in a `FunctionStmt` leaves
the state produced by generating that last function. -/
theorem genFunctions_append_last (fs : List Stmt) (n : String) (ps : List Param)
    (rt : TypeInfo) (b : List Stmt) (s : CGState) :
    (genFunctions (fs ++ [Stmt.functionStmt n ps rt b]) s).2 =
      (genFunctionStmt n ps rt b (genFunctions fs s).2).2 := by
  induction fs generalizing s with
  | nil => simp [genFunctions]
  | cons hd rest ih => cases hd <;> simp [genFunctions, ih]

/-- `declareLocal` hands out offset `stackOffset + 8` whatever the scope
stack looks like. -/
theorem declareLocal_fst (s : CGState) (nm : String) (ty : TypeInfo) (mu : Bool) :
    (s.declareLocal nm ty mu).1 = s.stackOffset + 8 := by
  unfold CGState.declareLocal
  cases h : s.scopes <;> simp [h]

/-- The program `func f() => void { return }` then `let x: int = 1`: the
last (only) top-level function allocates no parameter/local slots. -/
def progC10 : List Stmt :=
  [Stmt.functionStmt "f" [] voidT [Stmt.returnStmt none],
   Stmt.letStmt "x" intT (litInt 1) false]

/-- C10 counterexample.  The claim's final sentence says the first
top-level local lands at `[rbp-8]` ONLY in programs with no Function
statement; `progC10` has a Function statement (one that allocates no
slots) and its first top-level `let` is still stored at `[rbp-8]`. -/
theorem C10_counterexample_zero_slot_function :
    (collectFunctions progC10).length = 1 ∧
    (generate progC10).contains "    mov [rbp-8], rax" = true := by
  exact ⟨by decide, by decide⟩

/-- C10 (amended).  The stack-offset counter is reset to 0 on entry to
each Function statement but never before `main`'s body: (a) the code
emitted for a function does not depend on the incoming offset; (b) the
offset at `main` entry is the offset left by the LAST top-level function;
(c) it is 0 when there are no functions; (d) a `let` generated from
state `s` stores at `[rbp-(s.stackOffset+8)]`; (e) hence when the last
function leaves offset `8k` (it allocated `k` slots), the first `let` of
`main` is stored at `[rbp-(8(k+1))]` — which is `[rbp-8]` exactly when
`k = 0` or there is no function, not only when there is none. -/
theorem C10_main_frame_offsets :
    (∀ (n : String) (ps : List Param) (rt : TypeInfo) (b : List Stmt)
       (s : CGState) (o : Int),
      genFunctionStmt n ps rt b s = genFunctionStmt n ps rt b { s with stackOffset := o }) ∧
    (∀ (stmts fs : List Stmt) (n : String) (ps : List Param) (rt : TypeInfo)
       (b : List Stmt),
      collectFunctions stmts = fs ++ [Stmt.functionStmt n ps rt b] →
      (mainEntryState stmts).stackOffset =
        ((genFunctionStmt n ps rt b (genFunctions fs cgInit).2).2).stackOffset) ∧
    (∀ stmts : List Stmt, collectFunctions stmts = [] →
      (mainEntryState stmts).stackOffset = 0) ∧
    (∀ (nm : String) (ty : TypeInfo) (v : Expr) (mu : Bool) (s : CGState),
      (genStmt (Stmt.letStmt nm ty v mu) s).1 =
        [commentL ("let " ++ nm)] ++ (genExpr v s).1 ++
        [emitL ("mov [rbp-" ++ toString (s.stackOffset + 8) ++ "], rax")]) ∧
    (∀ (stmts fs : List Stmt) (n : String) (ps : List Param) (rt : TypeInfo)
       (b : List Stmt) (k : Int) (nm : String) (ty : TypeInfo) (v : Expr) (mu : Bool),
      collectFunctions stmts = fs ++ [Stmt.functionStmt n ps rt b] →
      ((genFunctionStmt n ps rt b (genFunctions fs cgInit).2).2).stackOffset = 8 * k →
      (genStmt (Stmt.letStmt nm ty v mu) (mainEntryState stmts)).1.getLast? =
        some (emitL ("mov [rbp-" ++ toString (8 * (k + 1)) ++ "], rax"))) := by
  have hb : ∀ (stmts fs : List Stmt) (n : String) (ps : List Param) (rt : TypeInfo)
      (b : List Stmt),
      collectFunctions stmts = fs ++ [Stmt.functionStmt n ps rt b] →
      (mainEntryState stmts).stackOffset =
        ((genFunctionStmt n ps rt b (genFunctions fs cgInit).2).2).stackOffset := by
    intro stmts fs n ps rt b h
    simp only [mainEntryState, h, genFunctions_append_last, enterScopeCG]
  have hd : ∀ (nm : String) (ty : TypeInfo) (v : Expr) (mu : Bool) (s : CGState),
      (genStmt (Stmt.letStmt nm ty v mu) s).1 =
        [commentL ("let " ++ nm)] ++ (genExpr v s).1 ++
        [emitL ("mov [rbp-" ++ toString (s.stackOffset + 8) ++ "], rax")] := by
    intro nm ty v mu s
    simp only [genStmt, declareLocal_fst, genExpr_stackOffset]
  refine ⟨fun n ps rt b s o => rfl, hb, ?_, hd, ?_⟩
  · intro stmts h
    simp [mainEntryState, h, genFunctions, enterScopeCG, cgInit]
  · intro stmts fs n ps rt b k nm ty v mu hcf hk
    rw [hd nm ty v mu (mainEntryState stmts)]
    have hoff : (mainEntryState stmts).stackOffset + 8 = 8 * (k + 1) := by
      rw [hb stmts fs n ps rt b hcf, hk]
      ring
    rw [hoff, List.append_assoc]
    rw [List.getLast?_append]
    simp

/-- A program whose last (only) top-level function allocates two slots
(the parameter `a` and the local `y`), followed by a top-level `let`. -/
def progC10w : List Stmt :=
  [Stmt.functionStmt "g" [⟨"a", intT⟩] intT
    [Stmt.letStmt "y" intT (litInt 1) false,
     Stmt.returnStmt (some (Expr.identifier "y"))],
   Stmt.letStmt "x" intT (litInt 5) false]

/-- C10 witness: for `progC10w` the last function leaves offset 16
(2 slots), and `main`'s first `let` is stored at `[rbp-24]`, not
`[rbp-8]`. -/
theorem C10_witness :
    (genStmt (Stmt.letStmt "x" intT (litInt 5) false) (mainEntryState progC10w)).1.getLast? =
      some (emitL ("mov [rbp-" ++ toString (8 * ((2 : Int) + 1)) ++ "], rax")) ∧
    (generate progC10w).contains "    mov [rbp-24], rax" = true ∧
    (generate progC10w).contains "    mov [rbp-8], rdi" = true := by
  refine ⟨C10_main_frame_offsets.2.2.2.2 progC10w [] "g" [⟨"a", intT⟩] intT
    [Stmt.letStmt "y" intT (litInt 1) false,
     Stmt.returnStmt (some (Expr.identifier "y"))]
    2 "x" intT (litInt 5) false rfl (by decide), by decide, by decide⟩

/-! ## C3: call-site arity for checked programs

`checkCallExpr` only verifies the argument count of a call whose callee
is an identifier already present in the function table, and the table is
filled in textual order with no hoisting pre-pass; moreover the checker
does not descend into the arguments of a call to an unknown or
non-identifier callee, nor into the object of a member access.  The
walker below re-traverses a program in exactly the checker's order,
maintaining only the declared (name, parameter count) table, and demands
that every call site it reaches whose callee is a declared name has the
declared argument count.  Checker success implies walker success. -/

/-- The function table projected to (name, parameter count). -/
def funArities (m : List (String × FunctionInfo)) : List (String × Nat) :=
  m.map (fun p => (p.1, p.2.paramTypes.length))

theorem assocGet_funArities (m : List (String × FunctionInfo)) (k : String) :
    assocGet (funArities m) k = (assocGet m k).map (fun fi => fi.paramTypes.length) := by
  induction m with
  | nil => rfl
  | cons p rest ih =>
    by_cases h : p.1 = k <;> simp [funArities, assocGet, h] <;> simpa [funArities] using ih

theorem funArities_assocSet (m : List (String × FunctionInfo)) (k : String)
    (fi : FunctionInfo) :
    funArities (assocSet m k fi) = assocSet (funArities m) k fi.paramTypes.length := by
  induction m with
  | nil => rfl
  | cons p rest ih =>
    by_cases h : p.1 = k <;> simp [funArities, assocSet, h] <;> simpa [funArities] using ih

mutual

/-- All call sites reached by `checkExpression` inside `e` whose callee
is a name declared in `F` carry the declared argument count. -/
def exprArityOk (F : List (String × Nat)) : Expr → Bool
  | Expr.literal _ _ => true
  | Expr.identifier _ => true
  | Expr.binary _ l r => exprArityOk F l && exprArityOk F r
  | Expr.unary _ o => exprArityOk F o
  | Expr.call (Expr.identifier f) args =>
    (match assocGet F f with
     | some n => (args.length == n) && argsArityOk F args
     | none => true)
  | Expr.call _ _ => true
  | Expr.member _ _ => true

def argsArityOk (F : List (String × Nat)) : List Expr → Bool
  | [] => true
  | a :: rest => exprArityOk F a && argsArityOk F rest

end

mutual

/-- The statement walker: thread the declaration table in the checker's
textual order, failing where a reached call site disagrees with it. -/
def stmtArityCk (F : List (String × Nat)) : Stmt → Option (List (String × Nat))
  | Stmt.letStmt _ _ v _ => if exprArityOk F v then some F else none
  | Stmt.assignStmt _ v => if exprArityOk F v then some F else none
  | Stmt.exprStmt e => if exprArityOk F e then some F else none
  | Stmt.ifStmt c t e =>
    if exprArityOk F c then
      match stmtsArityCk F t with
      | some F1 => stmtsArityCk F1 e
      | none => none
    else none
  | Stmt.whileStmt c b => if exprArityOk F c then stmtsArityCk F b else none
  | Stmt.forStmt i c u b =>
    match stmtArityCk F i with
    | some F1 =>
      if exprArityOk F1 c then
        match stmtArityCk F1 u with
        | some F2 => stmtsArityCk F2 b
        | none => none
      else none
    | none => none
  | Stmt.returnStmt (some v) => if exprArityOk F v then some F else none
  | Stmt.returnStmt none => some F
  | Stmt.functionStmt n ps _ b => stmtsArityCk (assocSet F n ps.length) b
  | Stmt.breakStmt => some F
  | Stmt.continueStmt => some F
  | Stmt.importStmt _ _ => some F

def stmtsArityCk (F : List (String × Nat)) : List Stmt → Option (List (String × Nat))
  | [] => some F
  | s :: rest =>
    match stmtArityCk F s with
    | some F1 => stmtsArityCk F1 rest
    | none => none

end

/-! Only `declareFunction` ever changes the checker's `functions_`
table; scope manipulation and variable declaration leave it alone. -/

theorem declareVariable_functions (st : TCState) (nm : String) (ty : TypeInfo) (mu : Bool) :
    (st.declareVariable nm ty mu).functions = st.functions := by
  unfold TCState.declareVariable
  cases h : st.scopes <;> simp [h]

theorem declareParams_functions : ∀ (ps : List Param) (st : TCState),
    (declareParams st ps).functions = st.functions
  | [], st => rfl
  | p :: ps, st => by
    rw [declareParams, declareParams_functions ps _, declareVariable_functions]

mutual

/-- If `checkExpression` succeeds on `e`, every call site it reached in
`e` agrees with the current function table's arities. -/
theorem checkExpression_arityOk : ∀ (e : Expr) (st : TCState) (t : TypeInfo),
    checkExpression st e = Except.ok t →
    exprArityOk (funArities st.functions) e = true
  | Expr.literal _ _, _, _, _ => rfl
  | Expr.identifier _, _, _, _ => rfl
  | Expr.binary op l r, st, t, h => by
    cases hl : checkExpression st l with
    | error e1 => simp only [checkExpression, hl] at h; exact Except.noConfusion h
    | ok tl =>
      cases hr : checkExpression st r with
      | error e1 =>
        simp only [checkExpression, hl, hr] at h
        exact Except.noConfusion h
      | ok tr =>
        simp [exprArityOk, checkExpression_arityOk l st tl hl,
          checkExpression_arityOk r st tr hr]
  | Expr.unary op o, st, t, h => by
    cases ho : checkExpression st o with
    | error e1 => simp only [checkExpression, ho] at h; exact Except.noConfusion h
    | ok t0 =>
      simpa [exprArityOk] using checkExpression_arityOk o st t0 ho
  | Expr.call (Expr.identifier f) args, st, t, h => by
    simp only [exprArityOk, assocGet_funArities]
    cases hf : st.lookupFunction f with
    | none =>
      unfold TCState.lookupFunction at hf
      rw [hf]
      rfl
    | some fi =>
      unfold TCState.lookupFunction at hf
      rw [hf]
      simp only [checkExpression, TCState.lookupFunction, hf] at h
      by_cases hlen : args.length = fi.paramTypes.length
      · rw [if_neg (by simpa using hlen)] at h
        cases hca : checkArgs st args fi.paramTypes with
        | error e1 => rw [hca] at h; cases h
        | ok u =>
          simp [checkArgs_arityOk args fi.paramTypes st hlen hca, hlen]
      · rw [if_pos (by simpa using hlen)] at h
        cases h
  | Expr.call (Expr.literal v ty) args, _, _, _ => rfl
  | Expr.call (Expr.binary op l r) args, _, _, _ => rfl
  | Expr.call (Expr.unary op o) args, _, _, _ => rfl
  | Expr.call (Expr.call c as) args, _, _, _ => rfl
  | Expr.call (Expr.member o pr) args, _, _, _ => rfl
  | Expr.member _ _, _, _, _ => rfl

theorem checkArgs_arityOk : ∀ (args : List Expr) (pts : List TypeInfo) (st : TCState),
    args.length = pts.length → checkArgs st args pts = Except.ok () →
    argsArityOk (funArities st.functions) args = true
  | [], _, _, _, _ => rfl
  | a :: rest, [], st, hlen, h => by simp at hlen
  | a :: rest, pt :: pts, st, hlen, h => by
    cases ha : checkExpression st a with
    | error e1 => simp only [checkArgs, ha] at h; exact Except.noConfusion h
    | ok ta =>
      simp only [checkArgs, ha] at h
      by_cases hc : ta.isCompatible pt = true
      · rw [if_pos hc] at h
        have hrest := checkArgs_arityOk rest pts st (by simpa using hlen) h
        simp [argsArityOk, checkExpression_arityOk a st ta ha, hrest]
      · rw [if_neg hc] at h
        cases h

end

/-- `enterScope` and `exitScope` only touch the scope stack. -/
theorem enterScope_functions (st : TCState) : (st.enterScope).functions = st.functions :=
  rfl

theorem exitScope_functions (st : TCState) : (st.exitScope).functions = st.functions :=
  rfl

/-- Inversion of the checker on a `FunctionStmt`: the body was checked
from the freshly pushed parameter scope under the extended function
table, and the result restores the surrounding return type and
`inFunction` flag. -/
theorem checkFunctionStmt_inv (n : String) (ps : List Param) (rt : TypeInfo)
    (b : List Stmt) (st st' : TCState)
    (h : checkStatement st (Stmt.functionStmt n ps rt b) = Except.ok st') :
    ∃ st4, checkStmtList (declareParams { (st.declareFunction n (ps.map Param.type) rt).enterScope with currentReturnType := rt, inFunction := true } ps) b = Except.ok st4 ∧
      st' = { st4.exitScope with currentReturnType := st.currentReturnType, inFunction := st.inFunction } := by
  simp only [checkStatement] at h
  cases hb : checkStmtList (declareParams { (st.declareFunction n (ps.map Param.type) rt).enterScope with currentReturnType := rt, inFunction := true } ps) b with
  | error e1 => rw [hb] at h; exact Except.noConfusion h
  | ok st4 =>
    rw [hb] at h
    cases h
    exact ⟨st4, rfl, rfl⟩

mutual

/-- If the checker accepts statement `s` from state `st` leaving `st'`,
the arity walker accepts `s` and transforms the projected table the same
way. -/
theorem checkStatement_arityCk : ∀ (s : Stmt) (st st' : TCState),
    checkStatement st s = Except.ok st' →
    stmtArityCk (funArities st.functions) s = some (funArities st'.functions)
  | Stmt.letStmt nm ty v mu, st, st', h => by
    cases hv : checkExpression st v with
    | error e1 => simp only [checkStatement, hv] at h; exact Except.noConfusion h
    | ok vt =>
      simp only [checkStatement, hv] at h
      by_cases hc : vt.isCompatible ty = true
      · rw [if_pos hc] at h
        cases h
        simp [stmtArityCk, checkExpression_arityOk v st vt hv, declareVariable_functions]
      · rw [if_neg hc] at h
        exact Except.noConfusion h
  | Stmt.assignStmt tg v, st, st', h => by
    cases hl : st.lookupVariable tg with
    | none => simp only [checkStatement, hl] at h; exact Except.noConfusion h
    | some var =>
      simp only [checkStatement, hl] at h
      by_cases hm : var.mutable_ = false
      · rw [if_pos hm] at h
        exact Except.noConfusion h
      · rw [if_neg hm] at h
        cases hv : checkExpression st v with
        | error e1 => simp only [hv] at h; exact Except.noConfusion h
        | ok vt =>
          simp only [hv] at h
          by_cases hc : vt.isCompatible var.type = true
          · rw [if_pos hc] at h
            cases h
            simp [stmtArityCk, checkExpression_arityOk v st vt hv]
          · rw [if_neg hc] at h
            exact Except.noConfusion h
  | Stmt.exprStmt e, st, st', h => by
    cases he : checkExpression st e with
    | error e1 => simp only [checkStatement, he] at h; exact Except.noConfusion h
    | ok t0 =>
      simp only [checkStatement, he] at h
      cases h
      simp [stmtArityCk, checkExpression_arityOk e st t0 he]
  | Stmt.ifStmt c tb eb, st, st', h => by
    cases hc : checkExpression st c with
    | error e1 => simp only [checkStatement, hc] at h; exact Except.noConfusion h
    | ok ct =>
      simp only [checkStatement, hc] at h
      by_cases hcond : ct.primitive ≠ PrimitiveType.BOOL ∧ ct.primitive ≠ PrimitiveType.ANY
      · rw [if_pos hcond] at h
        exact Except.noConfusion h
      · rw [if_neg hcond] at h
        cases ht : checkStmtList st.enterScope tb with
        | error e1 => simp only [ht] at h; exact Except.noConfusion h
        | ok st1 =>
          simp only [ht] at h
          have htW := checkStmtList_arityCk tb st.enterScope st1 ht
          rw [enterScope_functions] at htW
          by_cases hee : eb.isEmpty = true
          · rw [if_pos hee] at h
            cases h
            obtain rfl : eb = [] := by simpa [List.isEmpty_iff] using hee
            simp [stmtArityCk, checkExpression_arityOk c st ct hc, htW, stmtsArityCk,
              exitScope_functions]
          · rw [if_neg hee] at h
            cases hte : checkStmtList st1.exitScope.enterScope eb with
            | error e1 => simp only [hte] at h; exact Except.noConfusion h
            | ok st2 =>
              simp only [hte] at h
              cases h
              have heW := checkStmtList_arityCk eb st1.exitScope.enterScope st2 hte
              rw [enterScope_functions, exitScope_functions] at heW
              simp [stmtArityCk, checkExpression_arityOk c st ct hc, htW, heW,
                exitScope_functions]
  | Stmt.whileStmt c b, st, st', h => by
    cases hc : checkExpression st c with
    | error e1 => simp only [checkStatement, hc] at h; exact Except.noConfusion h
    | ok ct =>
      simp only [checkStatement, hc] at h
      by_cases hcond : ct.primitive ≠ PrimitiveType.BOOL ∧ ct.primitive ≠ PrimitiveType.ANY
      · rw [if_pos hcond] at h
        exact Except.noConfusion h
      · rw [if_neg hcond] at h
        cases hb : checkStmtList st.enterScope b with
        | error e1 => simp only [hb] at h; exact Except.noConfusion h
        | ok st1 =>
          simp only [hb] at h
          cases h
          have hbW := checkStmtList_arityCk b st.enterScope st1 hb
          rw [enterScope_functions] at hbW
          simp [stmtArityCk, checkExpression_arityOk c st ct hc, hbW, exitScope_functions]
  | Stmt.forStmt i c u b, st, st', h => by
    cases hi : checkStatement st.enterScope i with
    | error e1 => simp only [checkStatement, hi] at h; exact Except.noConfusion h
    | ok st1 =>
      simp only [checkStatement, hi] at h
      have hiW := checkStatement_arityCk i st.enterScope st1 hi
      rw [enterScope_functions] at hiW
      cases hc : checkExpression st1 c with
      | error e1 => simp only [hc] at h; exact Except.noConfusion h
      | ok ct =>
        simp only [hc] at h
        by_cases hcond : ct.primitive ≠ PrimitiveType.BOOL ∧ ct.primitive ≠ PrimitiveType.ANY
        · rw [if_pos hcond] at h
          exact Except.noConfusion h
        · rw [if_neg hcond] at h
          cases hu : checkStatement st1 u with
          | error e1 => simp only [hu] at h; exact Except.noConfusion h
          | ok st2 =>
            simp only [hu] at h
            have huW := checkStatement_arityCk u st1 st2 hu
            cases hb : checkStmtList st2 b with
            | error e1 => simp only [hb] at h; exact Except.noConfusion h
            | ok st3 =>
              simp only [hb] at h
              cases h
              have hbW := checkStmtList_arityCk b st2 st3 hb
              simp [stmtArityCk, hiW, checkExpression_arityOk c st1 ct hc, huW, hbW,
                exitScope_functions]
  | Stmt.functionStmt n ps rt b, st, st', h => by
    obtain ⟨st4, hb, rfl⟩ := checkFunctionStmt_inv n ps rt b st st' h
    have hbW := checkStmtList_arityCk b _ st4 hb
    rw [declareParams_functions] at hbW
    have hbW2 : stmtsArityCk
        (funArities (assocSet st.functions n ⟨ps.map Param.type, rt⟩)) b =
        some (funArities st4.functions) := hbW
    rw [funArities_assocSet] at hbW2
    simp only [List.length_map] at hbW2
    simpa [stmtArityCk, exitScope_functions] using hbW2
  | Stmt.returnStmt (some v), st, st', h => by
    simp only [checkStatement] at h
    by_cases hin : st.inFunction = false
    · rw [if_pos hin] at h
      exact Except.noConfusion h
    · rw [if_neg hin] at h
      cases hv : checkExpression st v with
      | error e1 => simp only [hv] at h; exact Except.noConfusion h
      | ok vt =>
        simp only [hv] at h
        by_cases hc : vt.isCompatible st.currentReturnType = true
        · rw [if_pos hc] at h
          cases h
          simp [stmtArityCk, checkExpression_arityOk v st vt hv]
        · rw [if_neg hc] at h
          exact Except.noConfusion h
  | Stmt.returnStmt none, st, st', h => by
    simp only [checkStatement] at h
    by_cases hin : st.inFunction = false
    · rw [if_pos hin] at h
      exact Except.noConfusion h
    · rw [if_neg hin] at h
      by_cases hvd : st.currentReturnType.primitive ≠ PrimitiveType.VOID
      · rw [if_pos hvd] at h
        exact Except.noConfusion h
      · rw [if_neg hvd] at h
        cases h
        rfl
  | Stmt.breakStmt, st, st', h => by
    simp only [checkStatement] at h
    cases h
    rfl
  | Stmt.continueStmt, st, st', h => by
    simp only [checkStatement] at h
    cases h
    rfl
  | Stmt.importStmt a m, st, st', h => by
    simp only [checkStatement] at h
    cases h
    rfl

theorem checkStmtList_arityCk : ∀ (l : List Stmt) (st st' : TCState),
    checkStmtList st l = Except.ok st' →
    stmtsArityCk (funArities st.functions) l = some (funArities st'.functions)
  | [], st, st', h => by
    simp only [checkStmtList] at h
    cases h
    rfl
  | s :: rest, st, st', h => by
    cases hs : checkStatement st s with
    | error e1 => simp only [checkStmtList, hs] at h; exact Except.noConfusion h
    | ok st1 =>
      simp only [checkStmtList, hs] at h
      have hsW := checkStatement_arityCk s st st1 hs
      have hrW := checkStmtList_arityCk rest st1 st' h
      simp [stmtsArityCk, hsW, hrW]

end

mutual

/-- Every call site in `e` (full traversal, including member objects and
all call arguments) whose callee is a plain identifier, as (name, number
of arguments). -/
def exprCallSites : Expr → List (String × Nat)
  | Expr.literal _ _ => []
  | Expr.identifier _ => []
  | Expr.binary _ l r => exprCallSites l ++ exprCallSites r
  | Expr.unary _ o => exprCallSites o
  | Expr.call c args =>
    (match c with
     | Expr.identifier f => [(f, args.length)]
     | _ => []) ++ exprCallSites c ++ exprsCallSites args
  | Expr.member o _ => exprCallSites o

def exprsCallSites : List Expr → List (String × Nat)
  | [] => []
  | e :: es => exprCallSites e ++ exprsCallSites es

end

mutual

def stmtCallSites : Stmt → List (String × Nat)
  | Stmt.letStmt _ _ v _ => exprCallSites v
  | Stmt.assignStmt _ v => exprCallSites v
  | Stmt.exprStmt e => exprCallSites e
  | Stmt.ifStmt c t e => exprCallSites c ++ stmtsCallSites t ++ stmtsCallSites e
  | Stmt.whileStmt c b => exprCallSites c ++ stmtsCallSites b
  | Stmt.forStmt i c u b =>
    stmtCallSites i ++ exprCallSites c ++ stmtCallSites u ++ stmtsCallSites b
  | Stmt.returnStmt (some v) => exprCallSites v
  | Stmt.returnStmt none => []
  | Stmt.functionStmt _ _ _ b => stmtsCallSites b
  | Stmt.breakStmt => []
  | Stmt.continueStmt => []
  | Stmt.importStmt _ _ => []

def stmtsCallSites : List Stmt → List (String × Nat)
  | [] => []
  | s :: rest => stmtCallSites s ++ stmtsCallSites rest

end

mutual

/-- Every Function statement of the program, as (name, parameter count). -/
def stmtFuncDecls : Stmt → List (String × Nat)
  | Stmt.functionStmt n ps _ b => (n, ps.length) :: stmtsFuncDecls b
  | Stmt.ifStmt _ t e => stmtsFuncDecls t ++ stmtsFuncDecls e
  | Stmt.whileStmt _ b => stmtsFuncDecls b
  | Stmt.forStmt i _ u b => stmtFuncDecls i ++ stmtFuncDecls u ++ stmtsFuncDecls b
  | _ => []

def stmtsFuncDecls : List Stmt → List (String × Nat)
  | [] => []
  | s :: rest => stmtFuncDecls s ++ stmtsFuncDecls rest

end

/-- Claim C3 as frozen: in a program the checker accepts, no call site
anywhere (including ones textually preceding the declaration) may
disagree in argument count with a Function statement of the same name. -/
def claimC3holds (prog : List Stmt) : Bool :=
  (stmtsCallSites prog).all fun cs =>
    (stmtsFuncDecls prog).all fun fd => (!(cs.1 == fd.1)) || (cs.2 == fd.2)

/-- `f(1, 2)` called before `func f(a: int) => int { return a }` is
declared. -/
def progC3x : List Stmt :=
  [Stmt.exprStmt (Expr.call (Expr.identifier "f") [litInt 1, litInt 2]),
   Stmt.functionStmt "f" [⟨"a", intT⟩] intT
     [Stmt.returnStmt (some (Expr.identifier "a"))]]

/-- C3 counterexample.  The checker accepts `progC3x` although the call
`f(1, 2)` textually precedes `func f(a: int)` and passes two arguments to
a one-parameter function: at the moment the call is checked, `f` is not
yet in the function table, so `checkCallExpr` returns ANY without any
arity check. -/
theorem C3_counterexample_forward_wrong_arity :
    (typeCheck progC3x).isOk = true ∧ claimC3holds progC3x = false :=
  ⟨by decide, by decide⟩

/-- C3 (amended).  For every program the type checker accepts, the arity
walker — which revisits the program in the checker's textual order,
maintains the (name, parameter count) table exactly as `declareFunction`
does, and requires every call site the checker reaches whose callee is a
declared name to carry the declared argument count — succeeds.  Call
sites that textually precede their callee's declaration (and subtrees the
checker skips: arguments of calls to unknown or non-identifier callees,
member-access objects) are not constrained. -/
theorem C3_accepted_programs_pass_arity_walker (prog : List Stmt)
    (h : (typeCheck prog).isOk = true) :
    (stmtsArityCk [] prog).isSome = true := by
  unfold typeCheck at h
  cases hc : checkStmtList tcInit prog with
  | error e1 => rw [hc] at h; simp [Except.isOk, Except.toBool] at h
  | ok st' =>
    have hW := checkStmtList_arityCk prog tcInit st' hc
    have h0 : funArities tcInit.functions = [] := rfl
    rw [h0] at hW
    rw [hW]
    rfl

/-- The S3-style program: `func add(a: int, b: int) => int` followed by a
two-argument call after the declaration. -/
def progC3w : List Stmt :=
  [Stmt.functionStmt "add" [⟨"a", intT⟩, ⟨"b", intT⟩] intT
     [Stmt.returnStmt (some (Expr.binary "+" (Expr.identifier "a")
       (Expr.identifier "b")))],
   Stmt.exprStmt (Expr.call (Expr.identifier "add") [litInt 2, litInt 40])]

/-- C3 witness: the amended theorem applied to `progC3w`. -/
theorem C3_witness : (stmtsArityCk [] progC3w).isSome = true :=
  C3_accepted_programs_pass_arity_walker progC3w (by decide)

/-! ## C8: expression precedence and associativity -/

/-- An identifier token on line 1 (token locations play no role in the
parse trees compared below). -/
def identTok (nm : String) : Token := ⟨TokenType.IDENTIFIER, nm, ⟨1, 1, ""⟩⟩

def opTok (t : TokenType) : Token := ⟨t, "", ⟨1, 1, ""⟩⟩

def intTok (v : String) : Token := ⟨TokenType.INTEGER, v, ⟨1, 1, ""⟩⟩

def eofTok : Token := ⟨TokenType.END_OF_FILE, "", ⟨1, 1, ""⟩⟩

/-- All thirteen binary operators with their token kinds, exactly the
`precedences` table's domain. -/
def allOps : List (TokenType × String) :=
  [(TokenType.OR, "||"), (TokenType.AND, "&&"),
   (TokenType.EQ, "=="), (TokenType.NE, "!="),
   (TokenType.LT, "<"), (TokenType.GT, ">"), (TokenType.LE, "<="), (TokenType.GE, ">="),
   (TokenType.PLUS, "+"), (TokenType.MINUS, "-"),
   (TokenType.STAR, "*"), (TokenType.SLASH, "/"), (TokenType.PERCENT, "%")]

/-- The token stream of the chain continuation `o1 x1 o2 x2 ... on xn EOF`:
each element pairs a binary operator (token kind and its operator string)
with the identifier operand that follows it. -/
def opsTail : List ((TokenType × String) × String) → List Token
  | [] => [eofTok]
  | pr :: rest => opTok pr.1.1 :: identTok pr.2 :: opsTail rest

/-- The full token stream of `x0 o1 x1 ... on xn`. -/
def chainToks (x0 : String) (pairs : List ((TokenType × String) × String)) : List Token :=
  identTok x0 :: opsTail pairs

/-- The tokens contributed by a consumed segment of the chain. -/
def pairsToks : List ((TokenType × String) × String) → List Token
  | [] => []
  | pr :: rest => opTok pr.1.1 :: identTok pr.2 :: pairsToks rest

/-- The precedence of a chain element's operator. -/
def prPrec (pr : (TokenType × String) × String) : Nat := getPrecedence pr.1.2

/-- The precedence of the first operator of a chain continuation (0 when
none remains, below every real precedence). -/
def headPrec : List ((TokenType × String) × String) → Nat
  | [] => 0
  | pr :: _ => prPrec pr

/-- The operator strings of an expression read in infix (left-to-right)
order; non-`binary` nodes are operands. -/
def chainOps : Expr → List String
  | Expr.binary o l r => chainOps l ++ o :: chainOps r
  | _ => []

/-- The operand expressions of an expression read in infix order. -/
def chainOperands : Expr → List Expr
  | Expr.binary _ l r => chainOperands l ++ chainOperands r
  | e => [e]

/-- The tree dictated by the precedence table with equal precedence
grouping left-associatively, characterized structurally: at every
`binary` node every operator of the left subtree binds at least as
tightly as the node and every operator of the right subtree binds
strictly more tightly.  (`chainWF_unique` below shows one tree per
operand/operator sequence satisfies this.) -/
def chainWF : Expr → Bool
  | Expr.binary o l r =>
    chainWF l && chainWF r &&
    (chainOps l).all (fun s => getPrecedence o ≤ getPrecedence s) &&
    (chainOps r).all (fun s => getPrecedence o < getPrecedence s)
  | _ => true

theorem getD_drop {α : Type} (l : List α) (i j : Nat) (d : α) :
    (l.drop i).getD j d = l.getD (i + j) d := by
  induction l generalizing i with
  | nil => simp [List.getD]
  | cons a t ih =>
    cases i with
    | zero => simp
    | succ i =>
      simp only [List.drop_succ_cons]
      rw [ih]
      have h2 : i + 1 + j = (i + j) + 1 := by omega
      rw [h2]
      simp [List.getD]

theorem drop_cons_getD {toks : List Token} {i : Nat} {tk : Token} {rest : List Token}
    (h : toks.drop i = tk :: rest) (d : Token) : toks.getD i d = tk := by
  have := getD_drop toks i 0 d
  rw [h] at this
  simpa using this.symm

theorem drop_cons_getD_succ {toks : List Token} {i : Nat} {tk : Token} {rest : List Token}
    (h : toks.drop i = tk :: rest) (d : Token) :
    toks.getD (i + 1) d = rest.getD 0 d := by
  have := getD_drop toks i 1 d
  rw [h] at this
  simpa using this.symm

theorem drop_cons_drop {toks : List Token} {i : Nat} {tk : Token} {rest : List Token}
    (h : toks.drop i = tk :: rest) : toks.drop (i + 1) = rest := by
  have : toks.drop (i + 1) = (toks.drop i).drop 1 := by
    rw [List.drop_drop]
  rw [this, h]
  simp

theorem takeWhile_split {α : Type} (p q : α → Bool) (l : List α)
    (hpq : ∀ x ∈ l, p x = true → q x = true) :
    l.takeWhile q = l.takeWhile p ++ (l.dropWhile p).takeWhile q := by
  induction l with
  | nil => simp
  | cons a t ih =>
    by_cases hpa : p a = true
    · have hqa : q a = true := hpq a (List.mem_cons_self a t) hpa
      simp only [List.takeWhile_cons, List.dropWhile_cons, hpa, hqa, if_true, ite_true]
      simp only [List.cons_append]
      congr 1
      exact ih (fun x hx hpx => hpq x (List.mem_cons_of_mem a hx) hpx)
    · have hp : List.takeWhile p (a :: t) = [] := by
        rw [List.takeWhile_cons, if_neg hpa]
      have hd : List.dropWhile p (a :: t) = a :: t := by
        rw [List.dropWhile_cons, if_neg hpa]
      rw [hp, hd]
      simp

theorem dropWhile_dropWhile {α : Type} (p q : α → Bool) (l : List α)
    (hpq : ∀ x ∈ l, p x = true → q x = true) :
    l.dropWhile q = (l.dropWhile p).dropWhile q := by
  induction l with
  | nil => simp
  | cons a t ih =>
    by_cases hpa : p a = true
    · have hqa : q a = true := hpq a (List.mem_cons_self a t) hpa
      simp only [List.dropWhile_cons, hpa, hqa, if_true, ite_true]
      exact ih (fun x hx hpx => hpq x (List.mem_cons_of_mem a hx) hpx)
    · have hd : List.dropWhile p (a :: t) = a :: t := by
        rw [List.dropWhile_cons, if_neg hpa]
      rw [hd]

theorem dropWhile_head_false {α : Type} (p : α → Bool) (l : List α) (x : α) (xs : List α)
    (h : l.dropWhile p = x :: xs) : p x = false := by
  induction l with
  | nil => simp at h
  | cons a t ih =>
    by_cases hpa : p a = true
    · simp only [List.dropWhile_cons, hpa, if_true, ite_true] at h
      exact ih h
    · rw [List.dropWhile_cons, if_neg hpa] at h
      cases h
      simpa using hpa

theorem takeWhile_eq_self_of_all {α : Type} (p : α → Bool) (l : List α)
    (h : ∀ x ∈ l, p x = true) : l.takeWhile p = l := by
  induction l with
  | nil => simp
  | cons a t ih =>
    simp only [List.takeWhile_cons, h a (List.mem_cons_self a t), if_true, ite_true]
    rw [ih (fun x hx => h x (List.mem_cons_of_mem a hx))]

theorem opsTail_append (A B : List ((TokenType × String) × String)) :
    opsTail (A ++ B) = pairsToks A ++ opsTail B := by
  induction A with
  | nil => simp [pairsToks]
  | cons pr rest ih => simp [opsTail, pairsToks, ih]

theorem pairsToks_length (A : List ((TokenType × String) × String)) :
    (pairsToks A).length = 2 * A.length := by
  induction A with
  | nil => simp [pairsToks]
  | cons pr rest ih => simp [pairsToks, ih]; omega

theorem allOps_facts : ∀ pr ∈ allOps,
    binaryOpString pr.1 = some pr.2 ∧ 0 < getPrecedence pr.2 ∧
    pr.1 ≠ TokenType.END_OF_FILE := by decide

theorem chainOperands_length (e : Expr) :
    (chainOperands e).length = (chainOps e).length + 1 := by
  match e with
  | Expr.binary o l r =>
    simp [chainOperands, chainOps, chainOperands_length l, chainOperands_length r]
    omega
  | Expr.literal v t => simp [chainOperands, chainOps]
  | Expr.identifier n => simp [chainOperands, chainOps]
  | Expr.unary o a => simp [chainOperands, chainOps]
  | Expr.call c a => simp [chainOperands, chainOps]
  | Expr.member o p => simp [chainOperands, chainOps]

theorem peek_eq {toks : List Token} {i : Nat} {tk : Token} {rest : List Token}
    (hd : toks.drop i = tk :: rest) : (⟨toks, i⟩ : ParserState).peek = tk := by
  show toks.getD i eofToken = tk
  exact drop_cons_getD hd _

theorem check_of_ne {p : ParserState} {t : TokenType} (h : p.peek.type ≠ t) :
    p.check t = false := by
  by_cases he : p.isAtEnd <;> simp [ParserState.check, he, h]

theorem matchToken_of_ne {p : ParserState} {t : TokenType} (h : p.peek.type ≠ t) :
    p.matchToken t = (false, p) := by
  simp [ParserState.matchToken, check_of_ne h]

theorem matchToken_of_eq {toks : List Token} {i : Nat} {tk : Token} {rest : List Token}
    {t : TokenType} (hd : toks.drop i = tk :: rest) (ht : tk.type = t)
    (hne : t ≠ TokenType.END_OF_FILE) :
    (⟨toks, i⟩ : ParserState).matchToken t = (true, ⟨toks, i + 1⟩) := by
  have hpk := peek_eq hd
  simp [ParserState.matchToken, ParserState.check, ParserState.isAtEnd,
    ParserState.advance, hpk, ht, hne]

theorem previous_eq {toks : List Token} {i : Nat} {tk : Token} {rest : List Token}
    (hd : toks.drop i = tk :: rest) : (⟨toks, i + 1⟩ : ParserState).previous = tk := by
  show toks.getD (i + 1 - 1) eofToken = tk
  have h2 : i + 1 - 1 = i := by omega
  rw [h2]
  exact drop_cons_getD hd _

theorem advance_snd {toks : List Token} {i : Nat} {tk : Token} {rest : List Token}
    (hd : toks.drop i = tk :: rest) (ht : tk.type ≠ TokenType.END_OF_FILE) :
    ((⟨toks, i⟩ : ParserState).advance).2 = ⟨toks, i + 1⟩ := by
  have hpk := peek_eq hd
  simp [ParserState.advance, ParserState.isAtEnd, hpk, ht]

theorem parseUnary_ident (toks : List Token) (i : Nat) (nm : String) (rest : List Token)
    (fuel : Nat) (hd : toks.drop i = identTok nm :: rest)
    (hnx : (toks.getD (i + 1) eofToken).type ≠ TokenType.DOT ∧
           (toks.getD (i + 1) eofToken).type ≠ TokenType.DOUBLE_COLON ∧
           (toks.getD (i + 1) eofToken).type ≠ TokenType.LPAREN)
    (hf : 3 ≤ fuel) :
    parseUnary fuel ⟨toks, i⟩ = Except.ok (Expr.identifier nm, ⟨toks, i + 1⟩) := by
  obtain ⟨f, rfl⟩ : ∃ f, fuel = f + 1 + 1 + 1 := ⟨fuel - 3, by omega⟩
  have hty : (identTok nm).type = TokenType.IDENTIFIER := rfl
  have hpk := peek_eq hd
  have hno : (⟨toks, i⟩ : ParserState).matchToken TokenType.NOT = (false, ⟨toks, i⟩) :=
    matchToken_of_ne (by rw [hpk, hty]; decide)
  have hmi : (⟨toks, i⟩ : ParserState).matchToken TokenType.MINUS = (false, ⟨toks, i⟩) :=
    matchToken_of_ne (by rw [hpk, hty]; decide)
  have hti : (⟨toks, i⟩ : ParserState).matchToken TokenType.TILDE = (false, ⟨toks, i⟩) :=
    matchToken_of_ne (by rw [hpk, hty]; decide)
  have hint : (⟨toks, i⟩ : ParserState).matchToken TokenType.INTEGER = (false, ⟨toks, i⟩) :=
    matchToken_of_ne (by rw [hpk, hty]; decide)
  have hfl : (⟨toks, i⟩ : ParserState).matchToken TokenType.FLOAT = (false, ⟨toks, i⟩) :=
    matchToken_of_ne (by rw [hpk, hty]; decide)
  have hst : (⟨toks, i⟩ : ParserState).matchToken TokenType.STRING = (false, ⟨toks, i⟩) :=
    matchToken_of_ne (by rw [hpk, hty]; decide)
  have htr : (⟨toks, i⟩ : ParserState).matchToken TokenType.TRUE = (false, ⟨toks, i⟩) :=
    matchToken_of_ne (by rw [hpk, hty]; decide)
  have hfa : (⟨toks, i⟩ : ParserState).matchToken TokenType.FALSE = (false, ⟨toks, i⟩) :=
    matchToken_of_ne (by rw [hpk, hty]; decide)
  have hid : (⟨toks, i⟩ : ParserState).matchToken TokenType.IDENTIFIER =
      (true, ⟨toks, i + 1⟩) := matchToken_of_eq hd hty (by decide)
  have hprev : (⟨toks, i + 1⟩ : ParserState).previous = identTok nm := previous_eq hd
  have hpk1 : (⟨toks, i + 1⟩ : ParserState).peek = toks.getD (i + 1) eofToken := rfl
  have hdot : (⟨toks, i + 1⟩ : ParserState).matchToken TokenType.DOT =
      (false, ⟨toks, i + 1⟩) := matchToken_of_ne (by rw [hpk1]; exact hnx.1)
  have hcol : (⟨toks, i + 1⟩ : ParserState).matchToken TokenType.DOUBLE_COLON =
      (false, ⟨toks, i + 1⟩) := matchToken_of_ne (by rw [hpk1]; exact hnx.2.1)
  have hlp : (⟨toks, i + 1⟩ : ParserState).check TokenType.LPAREN = false :=
    check_of_ne (by rw [hpk1]; exact hnx.2.2)
  simp only [parseUnary, hno, hmi, hti]
  simp only [parsePrimary, hint, hfl, hst, htr, hfa, hid]
  simp only [parsePostfix, hdot, hcol, hlp, hprev]
  simp [identTok]

/-- The loop-continuation predicate: the next operator binds more
tightly than the current minimum precedence. -/
def chainPred (minPrec : Nat) : ((TokenType × String) × String) → Bool :=
  fun pr => decide (minPrec < prPrec pr)

/-- Induction statement for `parseBinaryLoop` on operator/operand chains. -/
def LoopStmt (n : Nat) : Prop :=
  ∀ (pairs : List ((TokenType × String) × String)), pairs.length = n →
  ∀ (toks : List Token) (i minPrec fuel : Nat) (left : Expr),
    toks.drop i = opsTail pairs →
    (∀ pr ∈ pairs, pr.1 ∈ allOps) →
    2 * n + 5 ≤ fuel →
    chainWF left = true →
    (∀ s ∈ chainOps left, minPrec < getPrecedence s) →
    (∀ s ∈ chainOps left, headPrec pairs ≤ getPrecedence s) →
    ∃ t : Expr,
      parseBinaryLoop fuel minPrec left ⟨toks, i⟩ =
        Except.ok (t, ⟨toks, i + 2 * (pairs.takeWhile (chainPred minPrec)).length⟩) ∧
      chainOperands t = chainOperands left ++
        (pairs.takeWhile (chainPred minPrec)).map (fun pr => Expr.identifier pr.2) ∧
      chainOps t = chainOps left ++
        (pairs.takeWhile (chainPred minPrec)).map (fun pr => pr.1.2) ∧
      chainWF t = true ∧
      (∀ s ∈ chainOps t, minPrec < getPrecedence s)

/-- Induction statement for `parseBinary` on operator/operand chains. -/
def BinStmt (n : Nat) : Prop :=
  ∀ (pairs : List ((TokenType × String) × String)), pairs.length = n →
  ∀ (toks : List Token) (i minPrec fuel : Nat) (nm : String),
    toks.drop i = identTok nm :: opsTail pairs →
    (∀ pr ∈ pairs, pr.1 ∈ allOps) →
    2 * n + 6 ≤ fuel →
    ∃ t : Expr,
      parseBinary fuel minPrec ⟨toks, i⟩ =
        Except.ok (t, ⟨toks, i + 1 + 2 * (pairs.takeWhile (chainPred minPrec)).length⟩) ∧
      chainOperands t = Expr.identifier nm ::
        (pairs.takeWhile (chainPred minPrec)).map (fun pr => Expr.identifier pr.2) ∧
      chainOps t = (pairs.takeWhile (chainPred minPrec)).map (fun pr => pr.1.2) ∧
      chainWF t = true ∧
      (∀ s ∈ chainOps t, minPrec < getPrecedence s)

theorem allOps_not_postfix : ∀ pr ∈ allOps,
    pr.1 ≠ TokenType.DOT ∧ pr.1 ≠ TokenType.DOUBLE_COLON ∧
    pr.1 ≠ TokenType.LPAREN := by decide

theorem chain_main : ∀ n : Nat, LoopStmt n ∧ BinStmt n := by
  intro n
  induction n using Nat.strong_induction_on with
  | _ n ih =>
  have hloop : LoopStmt n := by
    intro pairs hlen toks i minPrec fuel left hdrop hops hfuel hWF hHigh hHeadLe
    obtain ⟨f, rfl⟩ : ∃ f, fuel = f + 1 := ⟨fuel - 1, by omega⟩
    cases pairs with
    | nil =>
      simp only [opsTail] at hdrop
      have hpk : (⟨toks, i⟩ : ParserState).peek = eofTok := peek_eq hdrop
      have hbo : binaryOpString ((⟨toks, i⟩ : ParserState).peek).type = none := by
        rw [hpk]; rfl
      refine ⟨left, ?_, by simp, by simp, hWF, hHigh⟩
      simp only [parseBinaryLoop, hbo]
      simp
    | cons pr rest =>
      obtain ⟨⟨oT, oS⟩, nm⟩ := pr
      simp only [opsTail] at hdrop
      have hmem : ((oT, oS) : TokenType × String) ∈ allOps :=
        hops _ (List.mem_cons_self _ _)
      have hfacts := allOps_facts _ hmem
      have hpk : (⟨toks, i⟩ : ParserState).peek = opTok oT := peek_eq hdrop
      have hbo : binaryOpString ((⟨toks, i⟩ : ParserState).peek).type = some oS := by
        rw [hpk]; exact hfacts.1
      by_cases hple : getPrecedence oS ≤ minPrec
      · have hpred : chainPred minPrec ((⟨oT, oS⟩, nm)) = false := by
          simp [chainPred, prPrec]; omega
        have htw : ((⟨⟨oT, oS⟩, nm⟩ :: rest).takeWhile (chainPred minPrec)) = [] := by
          rw [List.takeWhile_cons, hpred]
          simp
        refine ⟨left, ?_, by rw [htw]; simp, by rw [htw]; simp, hWF, hHigh⟩
        rw [htw]
        simp only [parseBinaryLoop, hbo]
        rw [if_pos hple]
        simp
      · have hlt : minPrec < getPrecedence oS := by omega
        have hdropin : toks.drop (i + 1) = identTok nm :: opsTail rest :=
          drop_cons_drop hdrop
        have hopsrest : ∀ pr ∈ rest, pr.1 ∈ allOps :=
          fun pr hpr => hops pr (List.mem_cons_of_mem _ hpr)
        have hlenr : rest.length < n := by simp at hlen; omega
        have hfuelbin : 2 * rest.length + 6 ≤ f := by simp at hlen; omega
        obtain ⟨tr, hinner, hoprd_r, hops_r, hWF_r, hHigh_r⟩ :=
          (ih rest.length hlenr).2 rest rfl toks (i + 1) (getPrecedence oS) f nm
            hdropin hopsrest hfuelbin
        have hadv : ((⟨toks, i⟩ : ParserState).advance).2 = ⟨toks, i + 1⟩ :=
          advance_snd hdrop (by show oT ≠ TokenType.END_OF_FILE; exact hfacts.2.2)
        -- names for the three chain segments
        have hsplit := List.takeWhile_append_dropWhile
          (p := chainPred (getPrecedence oS)) (l := rest)
        have hP'len : (rest.takeWhile (chainPred (getPrecedence oS))).length +
            (rest.dropWhile (chainPred (getPrecedence oS))).length = rest.length := by
          rw [← List.length_append, hsplit]
        -- the state after the inner parse
        have hdrop2 : toks.drop (i + 1 + 1) = opsTail rest := drop_cons_drop hdropin
        have hdrop' : toks.drop
            (i + 1 + 1 + 2 * (rest.takeWhile (chainPred (getPrecedence oS))).length) =
            opsTail (rest.dropWhile (chainPred (getPrecedence oS))) := by
          have hot : opsTail rest =
              pairsToks (rest.takeWhile (chainPred (getPrecedence oS))) ++
                opsTail (rest.dropWhile (chainPred (getPrecedence oS))) := by
            conv_lhs => rw [← hsplit]
            rw [opsTail_append]
          rw [← List.drop_drop, hdrop2, hot, ← pairsToks_length, List.drop_left]
        have hopsR' : ∀ pr ∈ rest.dropWhile (chainPred (getPrecedence oS)),
            pr.1 ∈ allOps := by
          intro pr hpr
          apply hopsrest
          rw [← hsplit]
          exact List.mem_append_right _ hpr
        have hfuelloop : 2 * (rest.dropWhile (chainPred (getPrecedence oS))).length + 5
            ≤ f := by omega
        have hWF' : chainWF (Expr.binary oS left tr) = true := by
          simp only [chainWF, Bool.and_eq_true, List.all_eq_true, decide_eq_true_eq]
          refine ⟨⟨⟨hWF, hWF_r⟩, ?_⟩, ?_⟩
          · intro s hs
            have := hHeadLe s hs
            simpa [headPrec, prPrec] using this
          · intro s hs
            exact hHigh_r s hs
        have hopsleft' : chainOps (Expr.binary oS left tr) =
            chainOps left ++ oS :: chainOps tr := by simp [chainOps]
        have hHigh' : ∀ s ∈ chainOps (Expr.binary oS left tr),
            minPrec < getPrecedence s := by
          intro s hs
          rw [hopsleft'] at hs
          rcases List.mem_append.mp hs with h | h
          · exact hHigh s h
          · rcases List.mem_cons.mp h with rfl | h
            · exact hlt
            · exact lt_trans hlt (hHigh_r s h)
        have hR'le : headPrec (rest.dropWhile (chainPred (getPrecedence oS))) ≤
            getPrecedence oS := by
          cases hR : rest.dropWhile (chainPred (getPrecedence oS)) with
          | nil => simp [headPrec]
          | cons q qs =>
            have := dropWhile_head_false _ _ _ _ hR
            simp only [chainPred, decide_eq_false_iff_not, not_lt] at this
            simpa [headPrec] using this
        have hHeadLe' : ∀ s ∈ chainOps (Expr.binary oS left tr),
            headPrec (rest.dropWhile (chainPred (getPrecedence oS))) ≤
              getPrecedence s := by
          intro s hs
          rw [hopsleft'] at hs
          rcases List.mem_append.mp hs with h | h
          · have h1 := hHeadLe s h
            have h2 : headPrec (⟨⟨oT, oS⟩, nm⟩ :: rest) = getPrecedence oS := rfl
            rw [h2] at h1
            omega
          · rcases List.mem_cons.mp h with rfl | h
            · exact hR'le
            · exact le_trans hR'le (le_of_lt (hHigh_r s h))
        have hlenR' : (rest.dropWhile (chainPred (getPrecedence oS))).length < n := by
          simp at hlen
          omega
        obtain ⟨t, houter, hoprd_t, hops_t, hWF_t, hHigh_t⟩ :=
          (ih _ hlenR').1 (rest.dropWhile (chainPred (getPrecedence oS))) rfl toks
            (i + 1 + 1 + 2 * (rest.takeWhile (chainPred (getPrecedence oS))).length)
            minPrec f (Expr.binary oS left tr) hdrop' hopsR' hfuelloop hWF' hHigh'
            hHeadLe'
        -- reconcile the takeWhile decomposition
        have hpq : ∀ x ∈ rest, chainPred (getPrecedence oS) x = true →
            chainPred minPrec x = true := by
          intro x hx h
          simp only [chainPred, decide_eq_true_eq] at h ⊢
          omega
        have htw : ((⟨⟨oT, oS⟩, nm⟩ :: rest).takeWhile (chainPred minPrec)) =
            ⟨⟨oT, oS⟩, nm⟩ :: (rest.takeWhile (chainPred (getPrecedence oS)) ++
              (rest.dropWhile (chainPred (getPrecedence oS))).takeWhile
                (chainPred minPrec)) := by
          rw [List.takeWhile_cons]
          have hpred : chainPred minPrec ((⟨oT, oS⟩, nm)) = true := by
            simp [chainPred, prPrec]; omega
          rw [hpred]
          simp only [if_true, ite_true]
          rw [← takeWhile_split _ _ _ hpq]
        refine ⟨t, ?_, ?_, ?_, hWF_t, hHigh_t⟩
        · have hstep : parseBinaryLoop (f + 1) minPrec left ⟨toks, i⟩ =
              parseBinaryLoop f minPrec (Expr.binary oS left tr) ⟨toks,
                i + 1 + 1 + 2 * (rest.takeWhile (chainPred (getPrecedence oS))).length⟩ := by
            simp only [parseBinaryLoop, hbo]
            rw [if_neg hple]
            simp only [hadv, hinner]
          rw [hstep, houter]
          have hidx : i + 1 + 1 + 2 * (rest.takeWhile (chainPred (getPrecedence oS))).length
              + 2 * ((rest.dropWhile (chainPred (getPrecedence oS))).takeWhile
                (chainPred minPrec)).length =
              i + 2 * ((⟨⟨oT, oS⟩, nm⟩ :: rest).takeWhile (chainPred minPrec)).length := by
            rw [htw]
            simp only [List.length_cons, List.length_append]
            omega
          rw [hidx]
        · rw [hoprd_t, htw]
          have : chainOperands (Expr.binary oS left tr) =
              chainOperands left ++ chainOperands tr := by simp [chainOperands]
          rw [this, hoprd_r]
          simp [List.map_append]
        · rw [hops_t, hopsleft', hops_r, htw]
          simp [List.map_append]
  refine ⟨hloop, ?_⟩
  intro pairs hlen toks i minPrec fuel nm hdrop hops hfuel
  obtain ⟨f, rfl⟩ : ∃ f, fuel = f + 1 := ⟨fuel - 1, by omega⟩
  have hnx : (toks.getD (i + 1) eofToken).type ≠ TokenType.DOT ∧
      (toks.getD (i + 1) eofToken).type ≠ TokenType.DOUBLE_COLON ∧
      (toks.getD (i + 1) eofToken).type ≠ TokenType.LPAREN := by
    have hg := drop_cons_getD_succ hdrop eofToken
    rw [hg]
    cases pairs with
    | nil => simp [opsTail, eofTok]
    | cons pr rest =>
      have h3 := allOps_not_postfix _ (hops _ (List.mem_cons_self _ _))
      simp [opsTail, opTok]
      exact h3
  have huna : parseUnary f ⟨toks, i⟩ = Except.ok (Expr.identifier nm, ⟨toks, i + 1⟩) :=
    parseUnary_ident toks i nm _ f hdrop hnx (by omega)
  have hdropl : toks.drop (i + 1) = opsTail pairs := drop_cons_drop hdrop
  obtain ⟨t, hteq, hoprd, hopsq, hWFt, hHight⟩ :=
    hloop pairs hlen toks (i + 1) minPrec f (Expr.identifier nm) hdropl hops
      (by omega) (by simp [chainWF]) (by simp [chainOps]) (by simp [chainOps])
  refine ⟨t, ?_, ?_, ?_, hWFt, hHight⟩
  · simp only [parseBinary, huna, hteq]
  · rw [hoprd]
    simp [chainOperands]
  · rw [hopsq]
    simp [chainOps]

theorem chainOps_eq_nil_operands (t : Expr) (h : chainOps t = []) :
    chainOperands t = [t] := by
  cases t <;> simp_all [chainOps, chainOperands]

theorem chainOps_ne_nil_binary (t : Expr) (h : chainOps t ≠ []) :
    ∃ o l r, t = Expr.binary o l r := by
  cases t with
  | binary o l r => exact ⟨o, l, r, rfl⟩
  | literal v ty => simp [chainOps] at h
  | identifier nm => simp [chainOps] at h
  | unary o a => simp [chainOps] at h
  | call c a => simp [chainOps] at h
  | member o p => simp [chainOps] at h

theorem chainWF_unique_aux : ∀ n : Nat, ∀ t1 t2 : Expr, (chainOps t1).length = n →
    chainWF t1 = true → chainWF t2 = true → chainOps t1 = chainOps t2 →
    chainOperands t1 = chainOperands t2 → t1 = t2 := by
  intro n
  induction n using Nat.strong_induction_on with
  | _ n ih =>
  intro t1 t2 hlen h1 h2 hops hoprd
  by_cases hnil : chainOps t1 = []
  · have hnil2 : chainOps t2 = [] := by rw [← hops]; exact hnil
    have e1 := chainOps_eq_nil_operands t1 hnil
    have e2 := chainOps_eq_nil_operands t2 hnil2
    rw [e1, e2] at hoprd
    simpa using hoprd
  · have hnil2 : chainOps t2 ≠ [] := by rw [← hops]; exact hnil
    obtain ⟨o1, l1, r1, rfl⟩ := chainOps_ne_nil_binary t1 hnil
    obtain ⟨o2, l2, r2, rfl⟩ := chainOps_ne_nil_binary t2 hnil2
    simp only [chainWF, Bool.and_eq_true, List.all_eq_true, decide_eq_true_eq] at h1 h2
    obtain ⟨⟨⟨hw1l, hw1r⟩, hall1l⟩, hall1r⟩ := h1
    obtain ⟨⟨⟨hw2l, hw2r⟩, hall2l⟩, hall2r⟩ := h2
    simp only [chainOps] at hops hlen
    simp only [chainOperands] at hoprd
    rcases List.append_eq_append_iff.mp hops with ⟨a, hl2, hr⟩ | ⟨c, hl1, hr⟩
    · cases a with
      | nil =>
        simp only [List.append_nil] at hl2
        have hr2 : o1 = o2 ∧ chainOps r1 = chainOps r2 := by simpa using hr
        obtain ⟨ho, hrr⟩ := hr2
        have hlen_l : (chainOperands l1).length = (chainOperands l2).length := by
          rw [chainOperands_length, chainOperands_length, hl2]
        obtain ⟨holp, horp⟩ := List.append_inj hoprd hlen_l
        have hLl : (chainOps l1).length < n := by
          simp only [List.length_append, List.length_cons] at hlen; omega
        have hLr : (chainOps r1).length < n := by
          simp only [List.length_append, List.length_cons] at hlen; omega
        have el : l1 = l2 := ih _ hLl l1 l2 rfl hw1l hw2l hl2.symm holp
        have er : r1 = r2 := ih _ hLr r1 r2 rfl hw1r hw2r hrr horp
        rw [ho, el, er]
      | cons x a' =>
        have hx : o1 = x ∧ chainOps r1 = a' ++ o2 :: chainOps r2 := by simpa using hr
        have ho2mem : o2 ∈ chainOps r1 := by
          rw [hx.2]; exact List.mem_append_right _ (List.mem_cons_self _ _)
        have ho1mem : o1 ∈ chainOps l2 := by
          rw [hl2, hx.1]; exact List.mem_append_right _ (List.mem_cons_self _ _)
        have hc1 := hall1r o2 ho2mem
        have hc2 := hall2l o1 ho1mem
        omega
    · cases c with
      | nil =>
        simp only [List.append_nil] at hl1
        have hr2 : o2 = o1 ∧ chainOps r2 = chainOps r1 := by simpa using hr
        obtain ⟨ho, hrr⟩ := hr2
        have hlen_l : (chainOperands l1).length = (chainOperands l2).length := by
          rw [chainOperands_length, chainOperands_length, hl1]
        obtain ⟨holp, horp⟩ := List.append_inj hoprd hlen_l
        have hLl : (chainOps l1).length < n := by
          simp only [List.length_append, List.length_cons] at hlen; omega
        have hLr : (chainOps r1).length < n := by
          simp only [List.length_append, List.length_cons] at hlen; omega
        have el : l1 = l2 := ih _ hLl l1 l2 rfl hw1l hw2l hl1 holp
        have er : r1 = r2 := ih _ hLr r1 r2 rfl hw1r hw2r hrr.symm horp
        rw [ho.symm, el, er]
      | cons x c' =>
        have hx : o2 = x ∧ chainOps r2 = c' ++ o1 :: chainOps r1 := by simpa using hr
        have ho1mem : o1 ∈ chainOps r2 := by
          rw [hx.2]; exact List.mem_append_right _ (List.mem_cons_self _ _)
        have ho2mem : o2 ∈ chainOps l1 := by
          rw [hl1, hx.1]; exact List.mem_append_right _ (List.mem_cons_self _ _)
        have hc1 := hall2r o1 ho1mem
        have hc2 := hall1l o2 ho2mem
        omega

theorem chainWF_unique (t1 t2 : Expr) (h1 : chainWF t1 = true) (h2 : chainWF t2 = true)
    (hops : chainOps t1 = chainOps t2) (hoprd : chainOperands t1 = chainOperands t2) :
    t1 = t2 :=
  chainWF_unique_aux (chainOps t1).length t1 t2 rfl h1 h2 hops hoprd

/-- The tokens of `2 + 3 * 4`. -/
def toksEx1 : List Token :=
  [intTok "2", opTok TokenType.PLUS, intTok "3", opTok TokenType.STAR, intTok "4", eofTok]

/-- The tokens of `a - b - c`. -/
def toksEx2 : List Token :=
  [identTok "a", opTok TokenType.MINUS, identTok "b", opTok TokenType.MINUS,
   identTok "c", eofTok]

/-- C8.  For every expression chain `x0 o1 x1 ... on xn` over the
thirteen binary operators with identifier operands (in particular every
chain over `+ - * / %` with distinct operands, any length n), the parser
consumes the whole chain and builds a tree whose infix operand and
operator sequences are exactly the input's and at whose every `binary`
node the left subtree's operators bind at least as tightly and the right
subtree's operators strictly more tightly -- the shape dictated by the
precedence table with equal precedence grouping left-associatively; that
shape determines the tree uniquely; and in particular `2 + 3 * 4` parses
as `Binary("+", 2, Binary("*", 3, 4))` and `a - b - c` parses as
`Binary("-", Binary("-", a, b), c)`. -/
theorem C8_precedence_and_associativity :
    (∀ (x0 : String) (pairs : List ((TokenType × String) × String)) (fuel : Nat),
       (∀ pr ∈ pairs, pr.1 ∈ allOps) →
       (x0 :: pairs.map (fun pr => pr.2)).Nodup →
       2 * pairs.length + 6 ≤ fuel →
       ∃ t : Expr,
         parseExpression fuel ⟨chainToks x0 pairs, 0⟩ =
           Except.ok (t, ⟨chainToks x0 pairs, 2 * pairs.length + 1⟩) ∧
         chainOperands t = Expr.identifier x0 ::
           pairs.map (fun pr => Expr.identifier pr.2) ∧
         chainOps t = pairs.map (fun pr => pr.1.2) ∧
         chainWF t = true) ∧
    (∀ t1 t2 : Expr, chainWF t1 = true → chainWF t2 = true →
       chainOps t1 = chainOps t2 → chainOperands t1 = chainOperands t2 → t1 = t2) ∧
    parseExpression 50 ⟨toksEx1, 0⟩ =
      Except.ok (Expr.binary "+" (litInt 2)
        (Expr.binary "*" (litInt 3) (litInt 4)), ⟨toksEx1, 5⟩) ∧
    parseExpression 50 ⟨toksEx2, 0⟩ =
      Except.ok (Expr.binary "-"
        (Expr.binary "-" (Expr.identifier "a") (Expr.identifier "b"))
        (Expr.identifier "c"), ⟨toksEx2, 5⟩) := by
  refine ⟨?_, chainWF_unique, rfl, rfl⟩
  intro x0 pairs fuel hops hnodup hfuel
  have hdrop : (chainToks x0 pairs).drop 0 = identTok x0 :: opsTail pairs := rfl
  obtain ⟨t, hteq, hoprd, hopsq, hWFt, _⟩ :=
    (chain_main pairs.length).2 pairs rfl (chainToks x0 pairs) 0 0 fuel x0 hdrop
      hops hfuel
  have htw : pairs.takeWhile (chainPred 0) = pairs := by
    apply takeWhile_eq_self_of_all
    intro pr hpr
    have := (allOps_facts _ (hops pr hpr)).2.1
    simp only [chainPred, prPrec, decide_eq_true_eq]
    omega
  rw [htw] at hteq hoprd hopsq
  refine ⟨t, ?_, hoprd, hopsq, hWFt⟩
  have hidx : 0 + 1 + 2 * pairs.length = 2 * pairs.length + 1 := by omega
  rw [← hidx]
  exact hteq

/-- Witness: the chain `a + b * c` with distinct identifier operands,
through the claim theorem itself. -/
theorem C8_witness : ∃ t : Expr,
    parseExpression 10
        ⟨chainToks "a" [((TokenType.PLUS, "+"), "b"), ((TokenType.STAR, "*"), "c")], 0⟩ =
      Except.ok (t,
        ⟨chainToks "a" [((TokenType.PLUS, "+"), "b"), ((TokenType.STAR, "*"), "c")], 5⟩) ∧
    chainOperands t = [Expr.identifier "a", Expr.identifier "b", Expr.identifier "c"] ∧
    chainOps t = ["+", "*"] ∧
    chainWF t = true :=
  C8_precedence_and_associativity.1 "a"
    [((TokenType.PLUS, "+"), "b"), ((TokenType.STAR, "*"), "c")] 10
    (by decide) (by decide) (by decide)

end Strata
